import Mathlib

/-!
Shallow embedding of the document mutation engine of
`src/content/fluxx-bridge.js` (the JSON-operations section inlined there
from `lib/json-ops.js`): the node model, the locator functions, the
element factory, the color-family matcher, the clone/transform engine and
the operation interpreter `applyOperations`, together with theorems
settling the specification claims about them.

Modelling conventions:
* JavaScript objects holding configuration/styling/visibility entries are
  association lists with JavaScript property semantics: first binding wins
  on read, in-place update or append on write.
* A missing (`undefined`) field is `Option.none`; JavaScript truthiness is
  modelled explicitly (`""`, `false`, `0`, `null`, `undefined` are falsy,
  every other value, including `[]` and `{}`, is truthy).
* `crypto.randomUUID()` is modelled by a deterministic fresh-name supply
  threaded through the interpreter (`uid-0`, `uid-1`, ...).
* `JSON.parse(JSON.stringify(x))` is modelled by a structural deep copy on
  the value domain (no functions, no cycles, no `undefined` members).
* The `Date`-valued `created_at` / `updated_at` registry timestamps are
  environment inputs that the engine never reads back; they are omitted
  from the registry record.
* The real-valued threshold comparisons of the color-family matcher
  (`r > g * 1.5` and similar) are modelled by the equivalent exact
  integer comparisons.
-/

namespace FluxxBridge

/-- A JSON-style value stored in a `config` / `styling` / `visibility`
map.  The engine only ever reads or writes null, boolean, numeric,
string and array entries of these maps. -/
inductive JVal where
  | jnull : JVal
  | jbool : Bool → JVal
  | jnum : Int → JVal
  | jstr : String → JVal
  | jarr : List JVal → JVal
deriving Repr

/-- A JavaScript object used as a string-keyed map (`config`, `styling`,
`visibility`): an association list whose keys are unique. -/
abbrev Smap := List (String × JVal)

/-- Property read, `m[k]`: `none` models `undefined`. -/
def mget (m : Smap) (k : String) : Option JVal :=
  match m with
  | [] => none
  | (k', v) :: rest => if k' == k then some v else mget rest k

/-- Property write, `m[k] = v`: updates the binding in place or appends
a new one, preserving JavaScript key order. -/
def mset (m : Smap) (k : String) (v : JVal) : Smap :=
  match m with
  | [] => [(k, v)]
  | (k', v') :: rest => if k' == k then (k, v) :: rest else (k', v') :: mset rest k v

/-- JavaScript truthiness of an optional value. -/
def truthy : Option JVal → Bool
  | none => false
  | some JVal.jnull => false
  | some (JVal.jbool b) => b
  | some (JVal.jnum n) => n != 0
  | some (JVal.jstr s) => s != ""
  | some (JVal.jarr _) => true

/-- JavaScript truthiness of an optional string field. -/
def truthyS : Option String → Bool
  | none => false
  | some s => s != ""

/-- JavaScript `a || b` on string-valued fields: keeps `a` when truthy. -/
def jsOr (a b : Option String) : Option String :=
  if truthyS a then a else b

/-- A stencil element (node of the form tree).  The three variants of the
source (`group`, `text`, `attribute`) share one record shape whose
`element_type` discriminates; caller-supplied structures may carry any
tag.  `elements = none` models a node without an `elements` property,
`some l` a node carrying the child array `l` (possibly empty «[]», which
is truthy in JavaScript). -/
inductive Element where
  | mk : (uid : String) → (elementType : String) → (name : Option String) →
         (label : Option String) → (config : Smap) → (styling : Smap) →
         (visibility : Smap) → (elements : Option (List Element)) → Element
deriving Repr

/-- The `uid` property. -/
def Element.uid : Element → String
  | .mk u _ _ _ _ _ _ _ => u

/-- The `element_type` property. -/
def Element.elementType : Element → String
  | .mk _ t _ _ _ _ _ _ => t

/-- The `name` property. -/
def Element.name : Element → Option String
  | .mk _ _ n _ _ _ _ _ => n

/-- The `label` property. -/
def Element.label : Element → Option String
  | .mk _ _ _ l _ _ _ _ => l

/-- The `config` property (a missing `config` object is modelled as the
empty map, which the engine normalises to with `el.config || {}`). -/
def Element.config : Element → Smap
  | .mk _ _ _ _ c _ _ _ => c

/-- The `styling` property. -/
def Element.styling : Element → Smap
  | .mk _ _ _ _ _ s _ _ => s

/-- The `visibility` property. -/
def Element.visibility : Element → Smap
  | .mk _ _ _ _ _ _ v _ => v

/-- The `elements` property. -/
def Element.elements : Element → Option (List Element)
  | .mk _ _ _ _ _ _ _ e => e

/-- An Attribute Registry (`ModelAttribute`) record.  Only the fields the
engine writes are kept; the `Date` timestamps are environment inputs the
engine never reads and are omitted. -/
structure ModelAttr where
  name : Option String
  description : Option String
  model_type : String
  attribute_type : String
  multi_allowed : Bool
  include_in_export : Bool
  include_in_fulltext_search : Bool
  api_style : String
  force_dropdown : Bool
  translatable : Bool
  model_type_enum : Nat
deriving DecidableEq, Repr

/-- `createModelAttribute(name, description, attributeType)`: the default
string-typed registry entry (`description || name` is JavaScript
truthiness selection). -/
def createModelAttribute (name : Option String) (description : Option String)
    (attributeType : String) : ModelAttr :=
  { name := name
    description := jsOr description name
    model_type := "GrantRequest"
    attribute_type := attributeType
    multi_allowed := false
    include_in_export := true
    include_in_fulltext_search := false
    api_style := "full"
    force_dropdown := false
    translatable := false
    model_type_enum := 98 }

/-- The names present in the Attribute Registry (a `find` on `a.name`). -/
def regNames (reg : List ModelAttr) : List String :=
  reg.flatMap (fun a => a.name.toList)

mutual
/-- One step of `findElementByUid` on a single element: check its `uid`,
then descend into `el.elements` whenever the property is present
(`if (el.elements)` — an empty array is truthy). -/
def findElementByUidE : Element → String → Option Element
  | Element.mk u et nm lb cfg sty vis ch, uid =>
    if u == uid then some (Element.mk u et nm lb cfg sty vis ch)
    else
      match ch with
      | some kids => findElementByUid kids uid
      | none => none
/-- `findElementByUid(elements, uid)`: depth-first pre-order search, first
match wins. -/
def findElementByUid : List Element → String → Option Element
  | [], _ => none
  | e :: rest, uid =>
    match findElementByUidE e uid with
    | some f => some f
    | none => findElementByUid rest uid
end

/-- `findElementByUid` called with a possibly `undefined` uid (a search
for `undefined` never matches a string `uid`). -/
def findElementByUidO (l : List Element) : Option String → Option Element
  | none => none
  | some uid => findElementByUid l uid

mutual
/-- Detachment strictly inside one element's subtree: returns the removed
element and the updated element. -/
def removeFirstByUidE : Element → String → Option (Element × Element)
  | Element.mk u et nm lb cfg sty vis ch, uid =>
    match ch with
    | some kids =>
      match removeFirstByUid kids uid with
      | some (rem, kids') => some (rem, Element.mk u et nm lb cfg sty vis (some kids'))
      | none => none
    | none => none
/-- `findParentOf(elements, uid)` followed by `splice(idx, 1)`: locates
the first pre-order occurrence of `uid`, removes that element from its
containing array, and returns the removed element together with the
rebuilt forest.  `none` when the uid does not occur. -/
def removeFirstByUid : List Element → String → Option (Element × List Element)
  | [], _ => none
  | e :: rest, uid =>
    if e.uid == uid then some (e, rest)
    else
      match removeFirstByUidE e uid with
      | some (rem, e') => some (rem, e' :: rest)
      | none =>
        match removeFirstByUid rest uid with
        | some (rem, rest') => some (rem, e :: rest')
        | none => none
end

mutual
/-- Relative insertion strictly inside one element's subtree. -/
def insertRelByUidE (before : Bool) (newEl : Element) :
    Element → String → Option Element
  | Element.mk u et nm lb cfg sty vis ch, uid =>
    match ch with
    | some kids =>
      match insertRelByUid before newEl kids uid with
      | some kids' => some (Element.mk u et nm lb cfg sty vis (some kids'))
      | none => none
    | none => none
/-- `findParentOf(elements, uid)` followed by inserting `newEl` at the
found index (position `"before"`) or just after it (any other position):
the splice-based relative insertion shared by the `add`, `move`,
`replace_subtree` and `clone_subtree` branches.  `none` when the uid does
not occur (the operation is then skipped). -/
def insertRelByUid (before : Bool) (newEl : Element) :
    List Element → String → Option (List Element)
  | [], _ => none
  | e :: rest, uid =>
    if e.uid == uid then
      if before then some (newEl :: e :: rest)
      else some (e :: newEl :: rest)
    else
      match insertRelByUidE before newEl e uid with
      | some e' => some (e' :: rest)
      | none =>
        match insertRelByUid before newEl rest uid with
        | some rest' => some (e :: rest')
        | none => none
end

mutual
/-- In-place replacement strictly inside one element's subtree. -/
def replaceRelByUidE (newEl : Element) : Element → String → Option Element
  | Element.mk u et nm lb cfg sty vis ch, uid =>
    match ch with
    | some kids =>
      match replaceRelByUid newEl kids uid with
      | some kids' => some (Element.mk u et nm lb cfg sty vis (some kids'))
      | none => none
    | none => none
/-- `findParentOf(elements, uid)` followed by `splice(idx, 1, newEl)`:
replaces the first pre-order occurrence of `uid` by `newEl` in place
(the `"replace"` position of `replace_subtree`). -/
def replaceRelByUid (newEl : Element) : List Element → String → Option (List Element)
  | [], _ => none
  | e :: rest, uid =>
    if e.uid == uid then some (newEl :: rest)
    else
      match replaceRelByUidE newEl e uid with
      | some e' => some (e' :: rest)
      | none =>
        match replaceRelByUid newEl rest uid with
        | some rest' => some (e :: rest')
        | none => none
end

mutual
/-- In-place mutation strictly inside one element's subtree. -/
def updateFirstByUidE (f : Element → Element) :
    Element → String → Option Element
  | Element.mk u et nm lb cfg sty vis ch, uid =>
    match ch with
    | some kids =>
      match updateFirstByUidO f kids uid with
      | some kids' => some (Element.mk u et nm lb cfg sty vis (some kids'))
      | none => none
    | none => none
/-- In-place mutation of the node returned by `findElementByUid`: applies
`f` to the first pre-order occurrence of `uid`.  `none` when the uid does
not occur. -/
def updateFirstByUidO (f : Element → Element) :
    List Element → String → Option (List Element)
  | [], _ => none
  | e :: rest, uid =>
    if e.uid == uid then some (f e :: rest)
    else
      match updateFirstByUidE f e uid with
      | some e' => some (e' :: rest)
      | none =>
        match updateFirstByUidO f rest uid with
        | some rest' => some (e :: rest')
        | none => none
end

/-- Mutation through a located reference: the forest is unchanged when
the uid is absent (the `if (el)` guards of the interpreter). -/
def updateFirstByUid (l : List Element) (uid : String) (f : Element → Element) :
    List Element :=
  (updateFirstByUidO f l uid).getD l

mutual
/-- All uids of a subtree, pre-order. -/
def elemUids : Element → List String
  | Element.mk u _ _ _ _ _ _ none => [u]
  | Element.mk u _ _ _ _ _ _ (some kids) => u :: forestUids kids
/-- All uids of a forest, pre-order. -/
def forestUids : List Element → List String
  | [] => []
  | e :: rest => elemUids e ++ forestUids rest
end

mutual
/-- Field names of the Field-reference (`attribute`) nodes of a subtree:
the `name` of every node tagged `attribute` that carries one. -/
def attrNamesE : Element → List String
  | Element.mk _ et nm _ _ _ _ none => if et == "attribute" then nm.toList else []
  | Element.mk _ et nm _ _ _ _ (some kids) =>
    (if et == "attribute" then nm.toList else []) ++ attrNamesF kids
/-- Field names of the `attribute` nodes of a forest. -/
def attrNamesF : List Element → List String
  | [] => []
  | e :: rest => attrNamesE e ++ attrNamesF rest
end

mutual
/-- Structural check that children lists only hang off Group nodes: no
node whose `element_type` differs from `"group"` has a non-empty
`elements` array. -/
def onlyGroupsHaveChildrenE : Element → Bool
  | Element.mk _ _ _ _ _ _ _ none => true
  | Element.mk _ et _ _ _ _ _ (some kids) =>
    (et == "group" || kids.isEmpty) && onlyGroupsHaveChildrenF kids
/-- `onlyGroupsHaveChildrenE` over a forest. -/
def onlyGroupsHaveChildrenF : List Element → Bool
  | [] => true
  | e :: rest => onlyGroupsHaveChildrenE e && onlyGroupsHaveChildrenF rest
end

mutual
/-- Structural equality of JSON-style values. -/
def beqJ : JVal → JVal → Bool
  | JVal.jnull, JVal.jnull => true
  | JVal.jbool b, JVal.jbool b' => b == b'
  | JVal.jnum n, JVal.jnum n' => n == n'
  | JVal.jstr s, JVal.jstr s' => s == s'
  | JVal.jarr l, JVal.jarr l' => beqJList l l'
  | _, _ => false
/-- Structural equality of JSON-style value lists. -/
def beqJList : List JVal → List JVal → Bool
  | [], [] => true
  | v :: r, v' :: r' => beqJ v v' && beqJList r r'
  | _, _ => false
end

/-- Structural equality of string maps. -/
def beqSmap : Smap → Smap → Bool
  | [], [] => true
  | (k, v) :: r, (k', v') :: r' => k == k' && beqJ v v' && beqSmap r r'
  | _, _ => false

mutual
/-- Structural (value) equality of elements. -/
def beqE : Element → Element → Bool
  | Element.mk u et nm lb cfg sty vis ch, Element.mk u' et' nm' lb' cfg' sty' vis' ch' =>
    u == u' && et == et' && nm == nm' && lb == lb' && beqSmap cfg cfg' &&
      beqSmap sty sty' && beqSmap vis vis' && beqOF ch ch'
/-- Structural equality of forests. -/
def beqF : List Element → List Element → Bool
  | [], [] => true
  | e :: r, e' :: r' => beqE e e' && beqF r r'
  | _, _ => false
/-- Structural equality of optional child arrays. -/
def beqOF : Option (List Element) → Option (List Element) → Bool
  | none, none => true
  | some l, some l' => beqF l l'
  | _, _ => false
end

mutual
/-- Membership of an element (up to structural equality) in a subtree. -/
def memSubtree (x : Element) : Element → Bool
  | Element.mk u et nm lb cfg sty vis ch =>
    beqE x (Element.mk u et nm lb cfg sty vis ch) ||
      (match ch with
       | some kids => memForest x kids
       | none => false)
/-- Membership of an element (up to structural equality) in a forest,
descending into children. -/
def memForest (x : Element) : List Element → Bool
  | [] => false
  | e :: rest => memSubtree x e || memForest x rest
end

/-- The deterministic model of `crypto.randomUUID()`: the `n`-th fresh
identifier handed out during a batch. -/
def genUid (n : Nat) : String :=
  "uid-" ++ toString n

/-- A possibly missing string rendered as a config value: a present
string stays a string, `undefined` is kept as a falsy entry. -/
def optStr2JVal : Option String → JVal
  | none => JVal.jnull
  | some s => JVal.jstr s

/-- The constant `advanced_query` baseline of the factory. -/
def advQuery : String :=
  "\x7b\"group_type\":\"and\",\"conditions\":[],\"relationship_filter_model_type\":\"GrantRequest\"\x7d"

/-- The visibility baseline shared by the three factory constructors. -/
def baseVisibility : Smap :=
  [("visible_form", JVal.jbool true), ("visible_show", JVal.jbool true),
   ("advanced_filter", JVal.jstr "1"), ("advanced_query", JVal.jstr advQuery),
   ("advanced_sort", JVal.jstr "[]")]

/-- Shallow-merge of caller-supplied overrides into a baseline map
(`for (const [key, value] of Object.entries(o)) base[key] = value`). -/
def mergeSmap (base : Smap) : Option Smap → Smap
  | none => base
  | some o => o.foldl (fun acc kv => mset acc kv.1 kv.2) base

/-- The conditional-visibility triple of `add` / `edit` operations. -/
structure Cond where
  field : Option String
  values : Option JVal
  type : Option String
deriving Repr

/-- Applying a conditional-visibility triple to a config map (the
`reveal_if_attribute` / `reveal_if_value` / `reveal_if_type` writes,
each guarded by truthiness of the supplied member). -/
def applyConditional (cfg : Smap) : Option Cond → Smap
  | none => cfg
  | some c =>
    let cfg1 := if truthyS c.field then mset cfg "reveal_if_attribute" (optStr2JVal c.field) else cfg
    let cfg2 := match c.values with
      | some v => if truthy (some v) then mset cfg1 "reveal_if_value" v else cfg1
      | none => cfg1
    if truthyS c.type then mset cfg2 "reveal_if_type" (optStr2JVal c.type) else cfg2

/-- `createGroupElement(label, options)`: the Group baseline merged with
caller overrides; `uid` is the identifier freshly generated inside the
constructor. -/
def createGroupElement (label : Option String) (cfgO styO visO : Option Smap)
    (cond : Option Cond) (uid : String) : Element :=
  let cfg0 : Smap :=
    [("label", optStr2JVal label), ("show_in_toc", JVal.jstr "0"),
     ("hide_label", JVal.jstr "0"), ("collapsible", JVal.jstr "0"),
     ("default_open", JVal.jstr "0"), ("disable_lazy_load", JVal.jstr "0"),
     ("reveal_if_type", JVal.jstr "show")]
  let cfg1 := mergeSmap cfg0 cfgO
  let cfg2 := applyConditional cfg1 cond
  Element.mk uid "group" (some "group") label cfg2
    (mergeSmap [("alignment", JVal.jstr "left")] styO)
    (mergeSmap baseVisibility visO) (some [])

/-- `createTextElement(html, options)`: the Text baseline merged with
caller overrides; a Text node has no `label` and no `elements` array. -/
def createTextElement (html : Option String) (styO visO : Option Smap)
    (uid : String) : Element :=
  let cfg0 : Smap :=
    [("text", optStr2JVal html), ("strip_html", JVal.jstr "0"),
     ("allow_script", JVal.jstr "0")]
  Element.mk uid "text" (some "text") none cfg0
    (mergeSmap [("alignment", JVal.jstr "left")] styO)
    (mergeSmap baseVisibility visO) none

/-- `createAttributeElement(fieldName, label)` as invoked by the `add`
branch (no extra options, so `required` defaults to `false` and no
overrides are merged). -/
def createAttributeElement (fieldName : Option String) (label : Option String)
    (uid : String) : Element :=
  let cfg0 : Smap :=
    [("label", optStr2JVal label), ("required", JVal.jbool false)]
  Element.mk uid "attribute" fieldName label cfg0
    [("alignment", JVal.jstr "left")] baseVisibility none

/-- `isRgbInFamily(r, g, b, family)`: channel-dominance classification.
The JavaScript real-valued comparisons (`r > g * 1.5`, brightness and
saturation thresholds) are modelled by the equivalent exact integer
comparisons. -/
def isRgbInFamily (r g b : Nat) (family : String) : Bool :=
  let sum := r + g + b
  let mx := max r (max g b)
  let mn := min r (min g b)
  if family == "red" then
    decide (r > 150) && decide (2 * r > 3 * g) && decide (5 * r > 6 * b) && decide (g < 150)
  else if family == "blue" then
    decide (b > 150) && decide (10 * b > 13 * r) && decide (10 * b > 11 * g)
  else if family == "green" then
    decide (g > 150) && decide (5 * g > 6 * r) && decide (5 * g > 6 * b)
  else if family == "orange" then
    decide (r > 180) && decide (g > 80) && decide (g < 180) && decide (b < 100)
  else if family == "yellow" then
    decide (r > 180) && decide (g > 180) && decide (b < 120)
  else if family == "purple" then
    decide (r > 100) && decide (b > 100) && decide (5 * g < 4 * min r b)
  else if family == "gray" then
    (mx == 0 || decide (5 * (mx - mn) < mx)) && decide (sum > 150) && decide (sum < 660)
  else if family == "black" then
    decide (sum < 150)
  else if family == "white" then
    decide (sum > 660) && (mx == 0 || decide (10 * (mx - mn) < mx))
  else
    false

/-- Numeric value of a hexadecimal digit character. -/
def hexVal (c : Char) : Nat :=
  if c.isDigit then c.toNat - 48
  else if c.toNat ≥ 97 && c.toNat ≤ 102 then c.toNat - 87
  else if c.toNat ≥ 65 && c.toNat ≤ 70 then c.toNat - 55
  else 0

/-- Whether a character is a hexadecimal digit (`[0-9a-fA-F]`). -/
def isHexDigit (c : Char) : Bool :=
  c.isDigit || (c.toNat ≥ 97 && c.toNat ≤ 102) || (c.toNat ≥ 65 && c.toNat ≤ 70)

/-- `isColorInFamily(hex, family)`: parses a `#rgb` or `#rrggbb` literal
and defers to `isRgbInFamily`; any other length is rejected. -/
def isColorInFamily (hex : String) (family : String) : Bool :=
  match hex.data with
  | ['#', a, b, c] =>
    isRgbInFamily (17 * hexVal a) (17 * hexVal b) (17 * hexVal c) family
  | ['#', a, b, c, d, e, f] =>
    isRgbInFamily (16 * hexVal a + hexVal b) (16 * hexVal c + hexVal d)
      (16 * hexVal e + hexVal f) family
  | _ => false

/-- `String.startsWith` on the character-list view (kernel-friendly
model of the byte-based core implementation; exact for the ASCII
prefixes used here). -/
def strStartsWith (s p : String) : Bool :=
  p.data.isPrefixOf s.data

/-- `s.slice(n)` / `String.drop` on the character-list view. -/
def strDrop (s : String) (n : Nat) : String :=
  String.mk (s.data.drop n)

/-- `String.toLowerCase()` on the character-list view (ASCII). -/
def strToLower (s : String) : String :=
  String.mk (s.data.map Char.toLower)

/-- `getTargetColor(colorName)`: a `#`-literal passes through verbatim,
a known family name maps to its canonical hex, anything else passes
through verbatim. -/
def getTargetColor (colorName : String) : String :=
  if strStartsWith colorName "#" then colorName
  else
    let k := strToLower colorName
    if k == "red" then "#cc0000"
    else if k == "blue" then "#0066cc"
    else if k == "green" then "#008800"
    else if k == "orange" then "#ff6600"
    else if k == "yellow" then "#ffcc00"
    else if k == "purple" then "#9900cc"
    else if k == "gray" then "#666666"
    else if k == "black" then "#000000"
    else if k == "white" then "#ffffff"
    else colorName

/-- JavaScript word character (`\w` = `[A-Za-z0-9_]`). -/
def isWordChar (c : Char) : Bool :=
  c.isAlpha || c.isDigit || c.toNat == 95

/-- JavaScript whitespace (`\s`): the ASCII whitespace characters plus
the common Unicode members (NBSP, line/paragraph separator, BOM); the
remaining Unicode space separators behave identically and never occur in
the theorems below. -/
def isJsSpace (c : Char) : Bool :=
  c.toNat == 32 || c.toNat == 9 || c.toNat == 10 || c.toNat == 11 ||
    c.toNat == 12 || c.toNat == 13 || c.toNat == 160 || c.toNat == 8232 ||
    c.toNat == 8233 || c.toNat == 65279

/-- Regex word boundary `\b` placed after a word character: satisfied at
end of input or before a non-word character. -/
def boundaryAfter : List Char → Bool
  | [] => true
  | c :: _ => !isWordChar c

/-- Case-insensitive character comparison (the `i` regex flag, ASCII
canonicalisation). -/
def ciEq (a b : Char) : Bool :=
  a.toLower == b.toLower

/-- Case-insensitive prefix test, returning the actually matched input
characters and the remaining input. -/
def ciPrefix : List Char → List Char → Option (List Char × List Char)
  | [], s => some ([], s)
  | _, [] => none
  | p :: ps, c :: cs =>
    if ciEq p c then
      match ciPrefix ps cs with
      | some (m, rest) => some (c :: m, rest)
      | none => none
    else none

/-- ECMAScript `GetSubstitution`: expands a replacement template over a
match (`$$`, `$&`, `$` + backquote, `$` + quote, `$n`/`$nn`); invalid
references stay literal.  `pre`/`post` are the subject text before and
after the match, `groups` the captured groups in order. -/
def expandDollar (matched : List Char) (groups : List (List Char))
    (pre post : List Char) : Nat → List Char → List Char
  | 0, t => t
  | _ + 1, [] => []
  | fuel + 1, '$' :: c :: rest =>
    if c == '$' then '$' :: expandDollar matched groups pre post fuel rest
    else if c == '&' then matched ++ expandDollar matched groups pre post fuel rest
    else if c.toNat == 96 then pre ++ expandDollar matched groups pre post fuel rest
    else if c.toNat == 39 then post ++ expandDollar matched groups pre post fuel rest
    else if c.isDigit then
      let d1 := c.toNat - 48
      match rest with
      | c2 :: rest2 =>
        if c2.isDigit && 1 ≤ 10 * d1 + (c2.toNat - 48) &&
            10 * d1 + (c2.toNat - 48) ≤ groups.length then
          (groups.getD (10 * d1 + (c2.toNat - 48) - 1) []) ++
            expandDollar matched groups pre post fuel rest2
        else if 1 ≤ d1 && d1 ≤ groups.length then
          (groups.getD (d1 - 1) []) ++ expandDollar matched groups pre post fuel rest
        else '$' :: c :: expandDollar matched groups pre post fuel rest
      | [] =>
        if 1 ≤ d1 && d1 ≤ groups.length then groups.getD (d1 - 1) []
        else ['$', c]
    else '$' :: c :: expandDollar matched groups pre post fuel rest
  | _ + 1, [c] => [c]
  | fuel + 1, c :: rest => c :: expandDollar matched groups pre post fuel rest

/-- Match attempt of `#([0-9a-fA-F]{3})\x7b1,2\x7d\b` just after a `#`:
six hexadecimal digits followed by a word boundary, or (backtracking the
greedy counted group) three digits followed by a word boundary.  Returns
the matched digits and the remaining input. -/
def hexMatchAfterHash (rest : List Char) : Option (List Char × List Char) :=
  let six :=
    match rest with
    | a :: b :: c :: d :: e :: f :: tail =>
      if [a, b, c, d, e, f].all isHexDigit && boundaryAfter tail then
        some ([a, b, c, d, e, f], tail)
      else none
    | _ => none
  match six with
  | some r => some r
  | none =>
    match rest with
    | a :: b :: c :: tail =>
      if [a, b, c].all isHexDigit && boundaryAfter tail then some ([a, b, c], tail)
      else none
    | _ => none

/-- The first (`#hex`) replacement pass of `replaceColorsInHtml`: a
global regex replace whose callback substitutes `target` for every hex
literal classified into `fam` and keeps every other match unchanged; the
scan resumes after each match. -/
def hexScan (fam target : String) : Nat → List Char → List Char
  | 0, s => s
  | _ + 1, [] => []
  | fuel + 1, c :: rest =>
    if c == '#' then
      match hexMatchAfterHash rest with
      | some (digits, tail) =>
        (if isColorInFamily (String.mk ('#' :: digits)) fam then target.data
         else '#' :: digits) ++ hexScan fam target fuel tail
      | none => c :: hexScan fam target fuel rest
    else c :: hexScan fam target fuel rest

/-- Decimal value of a non-empty digit string (the exact value of
`parseInt` on it; JavaScript would round above 2^53, which no theorem
below exercises). -/
def digitsToNat (l : List Char) : Nat :=
  l.foldl (fun acc c => 10 * acc + (c.toNat - 48)) 0

/-- `parseInt(s, 16)`: skip whitespace, optional sign, optional `0x`
prefix, then the longest hexadecimal-digit prefix; `none` models `NaN`. -/
def parseIntHex (s : String) : Option Int :=
  let l := s.data.dropWhile isJsSpace
  let (sign, l1) : Int × List Char :=
    match l with
    | '-' :: t => (-1, t)
    | '+' :: t => (1, t)
    | t => (1, t)
  let l2 :=
    match l1 with
    | '0' :: x :: t => if x == 'x' || x == 'X' then t else l1
    | _ => l1
  let digits := l2.takeWhile isHexDigit
  if digits.isEmpty then none
  else some (sign * Int.ofNat (digits.foldl (fun acc c => 16 * acc + hexVal c) 0))

/-- Template interpolation of a possibly-`NaN` channel value. -/
def renderNum : Option Int → String
  | none => "NaN"
  | some i => toString i

/-- Successful match data of the `rgb(a?)...` regex: the original
matched text, the `a?` capture, the three digit captures and the
`[^)]*` capture, plus the remaining input. -/
structure RgbMatch where
  matched : List Char
  hasA : Bool
  rdig : List Char
  gdig : List Char
  bdig : List Char
  restGrp : List Char
deriving Repr

/-- Match attempt of
`rgb(a?)\s*\(\s*(\d+)\s*,\s*(\d+)\s*,\s*(\d+)([^)]*)\)` (flag `i`) at
the head of the input. -/
def rgbMatchAt (s : List Char) : Option (RgbMatch × List Char) :=
  match s with
  | r :: g :: b :: t0 =>
    if ciEq r 'r' && ciEq g 'g' && ciEq b 'b' then
      let (aChars, t1) : List Char × List Char :=
        match t0 with
        | a :: t => if ciEq a 'a' then ([a], t) else ([], t0)
        | [] => ([], t0)
      let ws1 := t1.takeWhile isJsSpace
      let t2 := t1.dropWhile isJsSpace
      match t2 with
      | '(' :: t3 =>
        let ws2 := t3.takeWhile isJsSpace
        let t4 := t3.dropWhile isJsSpace
        let d1 := t4.takeWhile Char.isDigit
        let t5 := t4.dropWhile Char.isDigit
        if d1.isEmpty then none
        else
          let ws3 := t5.takeWhile isJsSpace
          let t6 := t5.dropWhile isJsSpace
          match t6 with
          | ',' :: t7 =>
            let ws4 := t7.takeWhile isJsSpace
            let t8 := t7.dropWhile isJsSpace
            let d2 := t8.takeWhile Char.isDigit
            let t9 := t8.dropWhile Char.isDigit
            if d2.isEmpty then none
            else
              let ws5 := t9.takeWhile isJsSpace
              let t10 := t9.dropWhile isJsSpace
              match t10 with
              | ',' :: t11 =>
                let ws6 := t11.takeWhile isJsSpace
                let t12 := t11.dropWhile isJsSpace
                let d3 := t12.takeWhile Char.isDigit
                let t13 := t12.dropWhile Char.isDigit
                if d3.isEmpty then none
                else
                  let rg := t13.takeWhile (fun c => c != ')')
                  let t14 := t13.dropWhile (fun c => c != ')')
                  match t14 with
                  | ')' :: t15 =>
                    some ({ matched := [r, g, b] ++ aChars ++ ws1 ++ '(' :: ws2 ++
                              d1 ++ ws3 ++ ',' :: ws4 ++ d2 ++ ws5 ++ ',' :: ws6 ++
                              d3 ++ rg ++ [')']
                            hasA := !aChars.isEmpty
                            rdig := d1, gdig := d2, bdig := d3, restGrp := rg }, t15)
                  | _ => none
              | _ => none
          | _ => none
      | _ => none
    else none
  | _ => none

/-- The replacement the `rgb`/`rgba` callback produces for a family
match: target channels re-rendered in the same functional form (the
`[^)]*` tail is kept only in the `rgba` branch), or the verbatim target
when it is not a `#`-literal. -/
def rgbReplacement (target : String) (m : RgbMatch) : List Char :=
  if strStartsWith target "#" then
    let tr := renderNum (parseIntHex (String.mk ((target.data.drop 1).take 2)))
    let tg := renderNum (parseIntHex (String.mk ((target.data.drop 3).take 2)))
    let tb := renderNum (parseIntHex (String.mk ((target.data.drop 5).take 2)))
    if m.hasA then
      ("rgba(" ++ tr ++ ", " ++ tg ++ ", " ++ tb).data ++ m.restGrp ++ [')']
    else
      ("rgb(" ++ tr ++ ", " ++ tg ++ ", " ++ tb ++ ")").data
  else target.data

/-- The second (`rgb`/`rgba`) replacement pass of `replaceColorsInHtml`. -/
def rgbScan (fam target : String) : Nat → List Char → List Char
  | 0, s => s
  | _ + 1, [] => []
  | fuel + 1, c :: rest =>
    match rgbMatchAt (c :: rest) with
    | some (m, tail) =>
      (if isRgbInFamily (digitsToNat m.rdig) (digitsToNat m.gdig)
          (digitsToNat m.bdig) fam then rgbReplacement target m
       else m.matched) ++ rgbScan fam target fuel tail
    | none => c :: rgbScan fam target fuel rest

/-- Match attempt of the alternation `(?:color|background-color|`
`border-color)` (flag `i`) at the head of the input; the three
alternatives are mutually exclusive on their first two characters, so
ordered first-match is exact.  Returns the matched characters and the
rest. -/
def propNameAt (s : List Char) : Option (List Char × List Char) :=
  match ciPrefix "color".data s with
  | some r => some r
  | none =>
    match ciPrefix "background-color".data s with
    | some r => some r
    | none => ciPrefix "border-color".data s

/-- Match attempt of `((?:color|background-color|border-color)\s*:\s*)`
`kw\b` (flags `gi`) at the head of the input: returns the first capture
group, the matched keyword characters and the remaining input. -/
def kwMatchAt (kw : String) (s : List Char) : Option (List Char × List Char × List Char) :=
  match propNameAt s with
  | none => none
  | some (p, t1) =>
    let ws1 := t1.takeWhile isJsSpace
    let t2 := t1.dropWhile isJsSpace
    match t2 with
    | ':' :: t3 =>
      let ws2 := t3.takeWhile isJsSpace
      let t4 := t3.dropWhile isJsSpace
      match ciPrefix kw.data t4 with
      | some (kwChars, tail) =>
        if boundaryAfter tail then some (p ++ ws1 ++ ':' :: ws2, kwChars, tail)
        else none
      | none => none
    | _ => none

/-- One keyword pass of `replaceColorsInHtml`: the global replace of the
keyword-in-declaration regex by the string template `$1` + target (a
string replacement, so `$`-patterns inside the target expand per
`expandDollar`).  `pre` accumulates the subject text already consumed. -/
def kwScan (kw target : String) : Nat → List Char → List Char → List Char
  | 0, _, s => s
  | _ + 1, _, [] => []
  | fuel + 1, pre, c :: rest =>
    match kwMatchAt kw (c :: rest) with
    | some (g1, kwChars, tail) =>
      let matched := g1 ++ kwChars
      expandDollar matched [g1] pre tail (target.data.length + 2)
          ('$' :: '1' :: target.data) ++
        kwScan kw target fuel (pre ++ matched) tail
    | none => c :: kwScan kw target fuel (pre ++ [c]) rest

/-- The keyword lists of the keyword-replacement stage of
`replaceColorsInHtml` (note: shorter than the `getColorPatterns` lists,
and looked up by the verbatim `findColor` string). -/
def kwListFor (findColor : String) : List String :=
  if findColor == "red" then ["red", "crimson", "darkred", "firebrick", "indianred", "maroon"]
  else if findColor == "blue" then ["blue", "navy", "darkblue", "royalblue", "steelblue", "dodgerblue"]
  else if findColor == "green" then ["green", "darkgreen", "forestgreen", "limegreen", "seagreen"]
  else if findColor == "orange" then ["orange", "darkorange", "coral", "tomato"]
  else if findColor == "yellow" then ["yellow", "gold", "khaki"]
  else if findColor == "purple" then ["purple", "violet", "magenta", "fuchsia"]
  else if findColor == "gray" then ["gray", "grey", "darkgray", "lightgray", "silver"]
  else []

/-- `replaceColorsInHtml(html, findColor, replaceColor)`: the hex pass,
then the `rgb`/`rgba` pass, then one keyword pass per family keyword, in
source order. -/
def replaceColorsInHtml (html findColor replaceColor : String) : String :=
  let target := getTargetColor replaceColor
  let r1 := hexScan findColor target html.data.length html.data
  let r2 := rgbScan findColor target r1.length r1
  String.mk ((kwListFor findColor).foldl
    (fun acc kw => kwScan kw target acc.length [] acc) r2)

/-- Global case-insensitive literal replacement: the model of
`s.replace(new RegExp(escapeRegExp(find), 'gi'), repl)` — the escape
makes every character of `find` literal, and `repl` is a string
replacement expanded with no capture groups.  The truthiness guards at
every call site keep `find` non-empty. -/
def literalScan (find repl : String) : Nat → List Char → List Char → List Char
  | 0, _, s => s
  | _ + 1, _, [] => []
  | fuel + 1, pre, c :: rest =>
    if find.data.isEmpty then c :: rest
    else
      match ciPrefix find.data (c :: rest) with
      | some (m, tail) =>
        expandDollar m [] pre tail repl.data.length repl.data ++
          literalScan find repl fuel (pre ++ m) tail
      | none => c :: literalScan find repl fuel (pre ++ [c]) rest

/-- `String.replace` with the escaped-literal global case-insensitive
regex, as used by `bulk_replace` and the clone label rewrite. -/
def literalReplaceCI (s find repl : String) : String :=
  String.mk (literalScan find repl s.data.length [] s.data)

/-- One operation record of a batch.  Every addressing or payload
property the interpreter reads is a field; `none` models an absent
property.  (`structure` is a Lean keyword, hence `structure'`.) -/
structure Op where
  type : String := ""
  after_uid : Option String := none
  uid : Option String := none
  target : Option String := none
  element_type : Option String := none
  label : Option String := none
  content : Option String := none
  field_name : Option String := none
  field_type : Option String := none
  alias' : Option String := none
  position : Option String := none
  config : Option Smap := none
  styling : Option Smap := none
  visibility : Option Smap := none
  conditional : Option Cond := none
  required : Option JVal := none
  read_only : Option JVal := none
  uids : Option (List String) := none
  find_color : Option String := none
  replace_color : Option String := none
  find : Option String := none
  replace : Option String := none
  set_required : Option JVal := none
  set_read_only : Option JVal := none
  set_hidden : Option JVal := none
  set_collapsible : Option JVal := none
  set_show_in_toc : Option JVal := none
  set_default_open : Option JVal := none
  set_hide_label : Option JVal := none
  target_uid : Option String := none
  structure' : Option Element := none
  source_uid : Option String := none
  label_find : Option String := none
  label_replace : Option String := none
  field_suffix : Option String := none

/-- The batch-scoped alias table (`aliases[name] = uid`). -/
abbrev Aliases := List (String × String)

/-- Alias-table read. -/
def aget (m : Aliases) (k : String) : Option String :=
  match m with
  | [] => none
  | (k', v) :: rest => if k' == k then some v else aget rest k

/-- Alias-table write. -/
def aset (m : Aliases) (k v : String) : Aliases :=
  match m with
  | [] => [(k, v)]
  | (k', v') :: rest => if k' == k then (k, v) :: rest else (k', v') :: aset rest k v

/-- The interpreter's primary addressing field:
`op.after_uid || op.uid || op.target` (JavaScript `||`). -/
def primaryRef (op : Op) : Option String :=
  jsOr (jsOr op.after_uid op.uid) op.target

/-- The per-operation alias resolution of the interpreter loop head: a
truthy reference beginning with `$` that is not the `$root` sentinel is
looked up in the alias table (an unregistered alias resolves to
`undefined`); everything else, `$root` included, passes through. -/
def resolveTargetUid (aliases : Aliases) (raw : Option String) : Option String :=
  match raw with
  | none => none
  | some t =>
    if t != "" && strStartsWith t "$" && t != "$root" then aget aliases (strDrop t 1)
    else some t

/-- The `move` branch's destination resolution: `op.target` is re-read
and a truthy `$`-reference is looked up in the alias table — with no
`$root` exception. -/
def resolveMoveDest (aliases : Aliases) (target : Option String) : Option String :=
  match target with
  | none => none
  | some t =>
    if t != "" && strStartsWith t "$" then aget aliases (strDrop t 1)
    else some t

/-- `target.elements = target.elements || []; target.elements.push(x)`. -/
def pushChild (x : Element) : Element → Element
  | Element.mk u et nm lb cfg sty vis ch =>
    Element.mk u et nm lb cfg sty vis (some (ch.getD [] ++ [x]))

/-- `target.elements = target.elements || []; target.elements.unshift(x)`. -/
def unshiftChild (x : Element) : Element → Element
  | Element.mk u et nm lb cfg sty vis ch =>
    Element.mk u et nm lb cfg sty vis (some (x :: ch.getD []))

/-- Copy the listed keys from `src` into `dst` when present
(the `!== undefined` guards of the `edit` branch). -/
def copyKeys (src : Smap) (keys : List String) (dst : Smap) : Smap :=
  keys.foldl
    (fun acc k =>
      match mget src k with
      | some v => mset acc k v
      | none => acc) dst

/-- The styling keys allowed on non-Group nodes by `edit`. -/
def spacingProps : List String :=
  ["margin_top", "margin_bottom", "margin_left", "margin_right",
   "padding_top", "padding_bottom", "padding_left", "padding_right", "alignment"]

/-- The in-place patch the `edit` branch applies to the located node. -/
def editElement (op : Op) : Element → Element
  | Element.mk u et nm lb cfg sty vis ch =>
    let cfg1 := if truthyS op.label then mset cfg "label" (optStr2JVal op.label) else cfg
    let lb1 := if truthyS op.label && lb.isSome then op.label else lb
    let cfg2 := match op.required with
      | some v => mset cfg1 "required" v
      | none => cfg1
    let cfg3 := match op.read_only with
      | some v => mset cfg2 "read_only" v
      | none => cfg2
    let cfg4 := if truthyS op.content && et == "text" then
        mset cfg3 "text" (optStr2JVal op.content)
      else cfg3
    let cfg5 := match op.config with
      | some oc =>
        copyKeys oc ["show_in_toc", "hide_label", "collapsible", "default_open", "open_states"] cfg4
      | none => cfg4
    let cfg6 := applyConditional cfg5 op.conditional
    let sty1 := match op.styling with
      | some os =>
        os.foldl
          (fun acc kv =>
            if et != "group" && !(spacingProps.contains kv.1) then acc
            else mset acc kv.1 kv.2) sty
      | none => sty
    let vis1 := match op.visibility with
      | some ov =>
        copyKeys ov ["visible_form", "visible_show", "visible_list", "show_states",
                     "read_only_states", "user_profile"] vis
      | none => vis
    Element.mk u et nm lb1 cfg6 sty1 vis1 ch

/-- The per-located-element patch of the `bulk_replace` branch: the
boolean toggles in source order, then the text rewrite — the
color-family rewrite when both color members are truthy, otherwise the
literal substring replace when both literal members are truthy. -/
def bulkUpdateEl (op : Op) : Element → Element
  | Element.mk u et nm lb cfg sty vis ch =>
    let cfg1 := match op.set_required with
      | some v => mset cfg "required" v
      | none => cfg
    let cfg2 := match op.set_read_only with
      | some v => mset cfg1 "read_only" v
      | none => cfg1
    let vis1 := match op.set_hidden with
      | some v =>
        mset (mset vis "visible_form" (JVal.jbool (!truthy (some v))))
          "visible_show" (JVal.jbool (!truthy (some v)))
      | none => vis
    let cfg3 := match op.set_collapsible with
      | some v => if et == "group" then mset cfg2 "collapsible" v else cfg2
      | none => cfg2
    let cfg4 := match op.set_show_in_toc with
      | some v => if et == "group" then mset cfg3 "show_in_toc" v else cfg3
      | none => cfg3
    let cfg5 := match op.set_default_open with
      | some v => if et == "group" then mset cfg4 "default_open" v else cfg4
      | none => cfg4
    let cfg6 := match op.set_hide_label with
      | some v => mset cfg5 "hide_label" v
      | none => cfg5
    let tOpt := mget cfg6 "text"
    let cfg7 :=
      if truthy tOpt && truthyS op.find_color && truthyS op.replace_color then
        match tOpt with
        | some (JVal.jstr t) =>
          mset cfg6 "text"
            (JVal.jstr (replaceColorsInHtml t (op.find_color.getD "") (op.replace_color.getD "")))
        | _ => cfg6
      else if truthy tOpt && truthyS op.find && truthyS op.replace then
        match tOpt with
        | some (JVal.jstr t) =>
          mset cfg6 "text" (JVal.jstr (literalReplaceCI t (op.find.getD "") (op.replace.getD "")))
        | _ => cfg6
      else cfg6
    Element.mk u et nm lb cfg7 sty vis1 ch

mutual
/-- `regenerateUids` of the `replace_subtree` branch: assigns a fresh
identifier to every node of the caller-supplied structure, parent before
children, threading the fresh-name counter. -/
def regenUids : Element → Nat → Element × Nat
  | Element.mk _ et nm lb cfg sty vis none, n =>
    (Element.mk (genUid n) et nm lb cfg sty vis none, n + 1)
  | Element.mk _ et nm lb cfg sty vis (some kids), n =>
    let (kids', n') := regenUidsF kids (n + 1)
    (Element.mk (genUid n) et nm lb cfg sty vis (some kids'), n')
/-- `regenUids` over a child array, left to right. -/
def regenUidsF : List Element → Nat → List Element × Nat
  | [], n => ([], n)
  | e :: rest, n =>
    let (e', n1) := regenUids e n
    let (rest', n2) := regenUidsF rest n1
    (e' :: rest', n2)
end

mutual
/-- `transformElement` of the `clone_subtree` branch: fresh identifier,
case-insensitive label find/replace on `config.label` and `label` (when
both members of the pair are truthy and the label is a truthy string),
field-name suffixing of truthy-named `attribute` nodes, then recursion
into children. -/
def transformElement (lf lr : Option String) (suffix : String) :
    Element → Nat → Element × Nat
  | Element.mk _ et nm lb cfg sty vis ch, n =>
    let u' := genUid n
    let cfg1 :=
      if truthyS lf && truthyS lr then
        match mget cfg "label" with
        | some (JVal.jstr s) =>
          if s != "" then
            mset cfg "label" (JVal.jstr (literalReplaceCI s (lf.getD "") (lr.getD "")))
          else cfg
        | _ => cfg
      else cfg
    let lb1 :=
      if truthyS lf && truthyS lr && truthyS lb then
        some (literalReplaceCI (lb.getD "") (lf.getD "") (lr.getD ""))
      else lb
    let nm1 :=
      if suffix != "" && et == "attribute" && truthyS nm then
        some (nm.getD "" ++ suffix)
      else nm
    match ch with
    | none => (Element.mk u' et nm1 lb1 cfg1 sty vis none, n + 1)
    | some kids =>
      let (kids', n') := transformElementF lf lr suffix kids (n + 1)
      (Element.mk u' et nm1 lb1 cfg1 sty vis (some kids'), n')
/-- `transformElement` over a child array, left to right. -/
def transformElementF (lf lr : Option String) (suffix : String) :
    List Element → Nat → List Element × Nat
  | [], n => ([], n)
  | e :: rest, n =>
    let (e', n1) := transformElement lf lr suffix e n
    let (rest', n2) := transformElementF lf lr suffix rest n1
    (e' :: rest', n2)
end

mutual
/-- `collectFieldNames` of the `clone_subtree` branch: the truthy names
of the `attribute` nodes of a subtree, pre-order. -/
def collectFieldNames : Element → List String
  | Element.mk _ et nm _ _ _ _ none =>
    if et == "attribute" && truthyS nm then [nm.getD ""] else []
  | Element.mk _ et nm _ _ _ _ (some kids) =>
    (if et == "attribute" && truthyS nm then [nm.getD ""] else []) ++
      collectFieldNamesF kids
/-- `collectFieldNames` over a child array. -/
def collectFieldNamesF : List Element → List String
  | [] => []
  | e :: rest => collectFieldNames e ++ collectFieldNamesF rest
end

/-- The registry loop of the `clone_subtree` branch: pushes a default
string-typed entry for every collected field name that has no existing
entry. -/
def ensureRegEntries (reg : List ModelAttr) (names : List String) : List ModelAttr :=
  names.foldl
    (fun acc n =>
      if (acc.find? (fun a => a.name == some n)).isSome then acc
      else acc ++ [createModelAttribute (some n) (some n) "string"]) reg

/-- The interpreter state threaded through a batch: the working
top-level element array, the Attribute Registry array, the batch-scoped
alias table and the fresh-identifier counter. -/
structure IState where
  elements : List Element
  modelAttrs : List ModelAttr
  aliases : Aliases
  counter : Nat

/-- `op.position || 'after'` (JavaScript `||`). -/
def posOrAfter (p : Option String) : String :=
  if truthyS p then p.getD "" else "after"

/-- The insertion dispatch shared verbatim by the `add` and `move`
branches: top-level push/unshift for the `$root` sentinel (`add` only),
append/prepend to the located target's children for the inside
positions, or splice next to the located target otherwise; a failed
lookup leaves the forest unchanged. -/
def insertNewAt (l : List Element) (isRoot : Bool) (position : Option String)
    (targetUid : Option String) (newEl : Element) : List Element :=
  if isRoot then
    if position == some "inside" then l ++ [newEl]
    else if position == some "before" then newEl :: l
    else l ++ [newEl]
  else if position == some "inside" || position == some "inside_end" then
    match targetUid with
    | some tu => updateFirstByUid l tu (pushChild newEl)
    | none => l
  else if position == some "inside_start" || position == some "inside_top" then
    match targetUid with
    | some tu => updateFirstByUid l tu (unshiftChild newEl)
    | none => l
  else
    match targetUid with
    | some tu => (insertRelByUid (position == some "before") newEl l tu).getD l
    | none => l

/-- The `add` branch of the interpreter: build a node through the
factory (for `field`, ensuring a registry entry first), register an
alias for the new identifier when requested, then insert at the resolved
anchor — top-level for the `$root` sentinel, into the target's children
for the inside positions, or next to the target otherwise.  A failed
lookup skips the insertion (but the alias, when requested, is registered
regardless). -/
def applyAdd (st : IState) (op : Op) (isRoot : Bool) (targetUid : Option String) : IState :=
  let built : Option Element × List ModelAttr × Nat :=
    if op.element_type == some "group" then
      (some (createGroupElement op.label op.config op.styling op.visibility
        op.conditional (genUid st.counter)), st.modelAttrs, st.counter + 1)
    else if op.element_type == some "text" then
      (some (createTextElement op.content op.styling op.visibility (genUid st.counter)),
        st.modelAttrs, st.counter + 1)
    else if op.element_type == some "field" then
      let reg' :=
        if (st.modelAttrs.find? (fun a => a.name == op.field_name)).isSome then st.modelAttrs
        else st.modelAttrs ++
          [createModelAttribute op.field_name op.field_name
            (if truthyS op.field_type then op.field_type.getD "" else "string")]
      (some (createAttributeElement op.field_name op.label (genUid st.counter)),
        reg', st.counter + 1)
    else (none, st.modelAttrs, st.counter)
  match built with
  | (none, _, _) => st
  | (some newEl, reg1, n1) =>
    let aliases' := if truthyS op.alias' then aset st.aliases (op.alias'.getD "") newEl.uid
      else st.aliases
    { elements := insertNewAt st.elements isRoot op.position targetUid newEl
      modelAttrs := reg1, aliases := aliases', counter := n1 }

/-- The `edit` branch: patch the located node in place. -/
def applyEdit (st : IState) (op : Op) (targetUid : Option String) : IState :=
  match targetUid with
  | some tu => { st with elements := updateFirstByUid st.elements tu (editElement op) }
  | none => st

/-- The `move` branch: detach the source from its parent array first,
then look the destination up in the already detached tree and re-insert;
a failed destination lookup leaves the detached subtree out. -/
def applyMove (st : IState) (op : Op) (targetUid : Option String) : IState :=
  let destUid := resolveMoveDest st.aliases op.target
  match targetUid with
  | none => st
  | some tu =>
    match removeFirstByUid st.elements tu with
    | none => st
    | some (removed, els1) =>
      { st with elements := insertNewAt els1 false op.position destUid removed }

/-- The `delete` branch: remove the located node and its subtree. -/
def applyDelete (st : IState) (targetUid : Option String) : IState :=
  match targetUid with
  | some tu =>
    { st with elements := ((removeFirstByUid st.elements tu).map Prod.snd).getD st.elements }
  | none => st

/-- The `bulk_replace` branch: patch each listed element in turn. -/
def applyBulk (st : IState) (op : Op) : IState :=
  let els' := (op.uids.getD []).foldl
    (fun els uid => updateFirstByUid els uid (bulkUpdateEl op)) st.elements
  { st with elements := els' }

/-- The `replace_subtree` branch: regenerate every identifier of the
caller-supplied structure (consuming fresh identifiers even when the
target is then not found), then splice it in place of the target or next
to it; its addressing field is the raw `op.target_uid`, with no alias
resolution. -/
def applyReplaceSubtree (st : IState) (op : Op) : IState :=
  match op.structure' with
  | none => st
  | some structure0 =>
    let (newStructure, n') := regenUids structure0 st.counter
    let els' :=
      match op.target_uid with
      | some tu =>
        if posOrAfter op.position == "replace" then
          (replaceRelByUid newStructure st.elements tu).getD st.elements
        else
          (insertRelByUid (posOrAfter op.position == "before") newStructure
            st.elements tu).getD st.elements
      | none => st.elements
    { st with elements := els', counter := n' }

/-- The `clone_subtree` branch: transform a deep copy of the source
(fresh identifiers, label rewrite, field-name suffix), create registry
entries for the collected field names when a suffix was supplied, and
insert the clone next to the source; its addressing field is the raw
`op.source_uid`, with no alias resolution. -/
def applyCloneSubtree (st : IState) (op : Op) : IState :=
  match findElementByUidO st.elements op.source_uid with
  | none => st
  | some sourceEl =>
    let (cloned, n') :=
      transformElement op.label_find op.label_replace (op.field_suffix.getD "")
        sourceEl st.counter
    let reg' :=
      if op.field_suffix.getD "" != "" then
        ensureRegEntries st.modelAttrs (collectFieldNames cloned)
      else st.modelAttrs
    let els' :=
      match op.source_uid with
      | some su =>
        (insertRelByUid (posOrAfter op.position == "before") cloned st.elements su).getD
          st.elements
      | none => st.elements
    { elements := els', modelAttrs := reg', aliases := st.aliases, counter := n' }

/-- One iteration of the interpreter loop of `applyOperations`: resolve
the primary addressing field through the alias table (with the `$root`
exception), then dispatch on `op.type`; an unknown tag is a no-op. -/
def applyOp (st : IState) (op : Op) : IState :=
  let raw := primaryRef op
  let isRoot := raw == some "$root"
  let targetUid := resolveTargetUid st.aliases raw
  if op.type == "add" then applyAdd st op isRoot targetUid
  else if op.type == "edit" then applyEdit st op targetUid
  else if op.type == "move" then applyMove st op targetUid
  else if op.type == "delete" then applyDelete st targetUid
  else if op.type == "bulk_replace" then applyBulk st op
  else if op.type == "replace_subtree" then applyReplaceSubtree st op
  else if op.type == "clone_subtree" then applyCloneSubtree st op
  else st

/-- The engine's document boundary: the top-level element array
(`data.records.Stencil[0].json.elements`) and the Attribute Registry
array (`data.records.ModelAttribute`); these are the only parts of the
export the engine reads or writes. -/
structure ExportData where
  elements : List Element
  modelAttrs : List ModelAttr

mutual
/-- Structural deep copy of an element (the element part of
`JSON.parse(JSON.stringify(exportData))`). -/
def deepCopyE : Element → Element
  | Element.mk u et nm lb cfg sty vis none =>
    Element.mk u et nm lb cfg sty vis none
  | Element.mk u et nm lb cfg sty vis (some kids) =>
    Element.mk u et nm lb cfg sty vis (some (deepCopyF kids))
/-- Structural deep copy of a forest. -/
def deepCopyF : List Element → List Element
  | [] => []
  | e :: rest => deepCopyE e :: deepCopyF rest
end

/-- Structural deep copy of the document boundary: the model of
`JSON.parse(JSON.stringify(exportData))` restricted to the parts the
engine touches. -/
def deepCopyExport (d : ExportData) : ExportData :=
  { elements := deepCopyF d.elements, modelAttrs := d.modelAttrs.map id }

/-- `applyOperations(exportData, operations)`: deep-copies the input,
runs the batch left to right against the working state (empty alias
table, fresh identifier supply) and returns the final document.  The
`Array.isArray` guard is discharged by typing; the engine never throws
past it. -/
def applyOperations (d : ExportData) (ops : List Op) : ExportData :=
  let d0 := deepCopyExport d
  let final := ops.foldl applyOp
    { elements := d0.elements, modelAttrs := d0.modelAttrs, aliases := [], counter := 0 }
  { elements := final.elements, modelAttrs := final.modelAttrs }

/-- The Field-reference/Attribute-Registry invariant of the data model:
every `attribute` node's present `name` has a registry entry. -/
def regInvB (d : ExportData) : Bool :=
  (attrNamesF d.elements).all (fun s => (regNames d.modelAttrs).contains s)

/-- Whether the text contains a `#` character at all (no `#` means the
hex pass of `replaceColorsInHtml` can match nowhere). -/
def hasHash (s : String) : Bool :=
  s.data.any (fun c => c == '#')

/-- Whether the text contains the letters `r`,`g`,`b` consecutively in
any casing (without them the `rgb`/`rgba` pass can match nowhere). -/
def hasRgbTri : List Char → Bool
  | r :: g :: b :: rest =>
    (ciEq r 'r' && ciEq g 'g' && ciEq b 'b') || hasRgbTri (g :: b :: rest)
  | _ => false

/-- The three property names of a styling declaration. -/
def declPropNames : List String := ["color", "background-color", "border-color"]

/-- Case-insensitive prefix test as a plain Bool. -/
def startsWithCI (p s : List Char) : Bool :=
  (ciPrefix p s).isSome

/-- A styling-declaration occurrence of `kw` starting at the head of the
suffix `s`: some property name of `declPropNames` (case-insensitively),
optional whitespace, a colon, optional whitespace, then `kw`
(case-insensitively) at a word boundary. -/
def stylingContextHere (kw : String) (s : List Char) : Bool :=
  declPropNames.any (fun p =>
    startsWithCI p.data s &&
      (let t1 := s.drop p.length
       let t2 := t1.dropWhile isJsSpace
       match t2 with
       | ':' :: t3 =>
         let t4 := t3.dropWhile isJsSpace
         startsWithCI kw.data t4 && boundaryAfter (t4.drop kw.length)
       | _ => false))

/-- Whether `kw` occurs anywhere in the text in a styling-declaration
context (the quantification of `stylingContextHere` over all suffixes). -/
def hasStylingContext (kw : String) : List Char → Bool
  | [] => false
  | c :: rest => stylingContextHere kw (c :: rest) || hasStylingContext kw rest

/-- C1 input: a document with an empty Group `g` and a Text `t` at top
level, with an empty registry. -/
def c1Doc : ExportData :=
  { elements :=
      [Element.mk "g" "group" (some "group") (some "Section") [] [] [] (some []),
       Element.mk "t" "text" (some "text") none [("text", JVal.jstr "hello")] [] [] none]
    modelAttrs := [] }

/-- C1 operation: move `t` inside a destination uid that does not exist
anywhere in the document. -/
def c1Op : Op :=
  { type := "move", uid := some "t", target := some "missing-dest", position := some "inside" }

/-- C2 input: a Group `g` whose only child is the Text `c`. -/
def c2Doc : ExportData :=
  { elements :=
      [Element.mk "g" "group" (some "group") (some "Section")
        [] [] [] (some [Element.mk "c" "text" (some "text") none [] [] [] none])]
    modelAttrs := [] }

/-- C2 operation: move the Group `g` inside its own descendant `c` —
the destination anchor lies inside the moved subtree. -/
def c2Op : Op :=
  { type := "move", uid := some "g", target := some "c", position := some "inside" }

/-- C3 counterexample input: one Text node and an empty registry (the
invariant holds vacuously). -/
def c3Doc : ExportData :=
  { elements := [Element.mk "t" "text" (some "text") none [] [] [] none]
    modelAttrs := [] }

/-- C3 operation: `replace_subtree` splicing in a caller-supplied
Field-reference node whose field name has no registry entry. -/
def c3Op : Op :=
  { type := "replace_subtree", target_uid := some "t", position := some "replace"
    structure' := some (Element.mk "caller-uid" "attribute" (some "f_new") (some "New")
      [("label", JVal.jstr "New")] [] [] none) }

/-- C3 witness batch input: a Group with one Field-reference named
`amount`, whose registry entry exists. -/
def c3WDoc : ExportData :=
  { elements :=
      [Element.mk "g" "group" (some "group") (some "Section")
        [] [] []
        (some [Element.mk "a" "attribute" (some "amount") (some "Amount") [] [] [] none])]
    modelAttrs := [createModelAttribute (some "amount") (some "Amount") "string"] }

/-- C3 witness batch: an `add` of a new field, an `edit`, a `move`, a
`clone_subtree` with a suffix, a `bulk_replace` and a `delete` — every
operation type except `replace_subtree`. -/
def c3WOps : List Op :=
  [{ type := "add", element_type := some "field", field_name := some "notes"
     label := some "Notes", position := some "inside", target := some "g" },
   { type := "edit", uid := some "a", label := some "Amount 2" },
   { type := "clone_subtree", source_uid := some "g", field_suffix := some "_y2"
     label_find := some "Section", label_replace := some "Section (Year 2)" },
   { type := "move", uid := some "a", target := some "g", position := some "after" },
   { type := "bulk_replace", uids := some ["g"], set_collapsible := some (JVal.jbool true) },
   { type := "delete", uid := some "a" }]

/-- C4 input: a single Text node (so children only hang off Groups,
vacuously). -/
def c4Doc : ExportData :=
  { elements := [Element.mk "t" "text" (some "text") none [("text", JVal.jstr "x")] [] [] none]
    modelAttrs := [] }

/-- C4 operation: add a Text node `inside` the Text node `t`. -/
def c4Op : Op :=
  { type := "add", element_type := some "text", content := some "child"
    position := some "inside", target := some "t" }

/-- C7 counterexample input: a Group whose children are a Field-reference
with the empty-string field name and one with a normal name. -/
def c7Doc : ExportData :=
  { elements :=
      [Element.mk "g" "group" (some "group") (some "Section 1")
        [] [] []
        (some [Element.mk "a" "attribute" (some "") (some "Anon") [] [] [] none,
               Element.mk "b" "attribute" (some "amount") (some "Amount") [] [] [] none])]
    modelAttrs := [createModelAttribute (some "") (some "Anon") "string",
                   createModelAttribute (some "amount") (some "Amount") "string"] }

/-- C7 operation: clone the Group with the field suffix `_y2`. -/
def c7Op : Op :=
  { type := "clone_subtree", source_uid := some "g", field_suffix := some "_y2" }

/-- C7 witness input: the clone source of spec Scenario B — a Group with
Field-references `amount` and `notes`. -/
def c7WDoc : ExportData :=
  { elements :=
      [Element.mk "g" "group" (some "group") (some "Section 1")
        [("label", JVal.jstr "Section 1")] [] []
        (some [Element.mk "a" "attribute" (some "amount") (some "Amount") [] [] [] none,
               Element.mk "b" "attribute" (some "notes") (some "Notes") [] [] [] none])]
    modelAttrs := [createModelAttribute (some "amount") (some "Amount") "string",
                   createModelAttribute (some "notes") (some "Notes") "string"] }

/-- C7 witness operation: Scenario B's clone with label rewrite and the
`_y2` suffix. -/
def c7WOp : Op :=
  { type := "clone_subtree", source_uid := some "g", field_suffix := some "_y2"
    label_find := some "Section 1", label_replace := some "Section 1 (Year 2)" }

/-- C7 witness source element: the Group `g` of `c7WDoc`. -/
def c7WSrc : Element :=
  Element.mk "g" "group" (some "group") (some "Section 1")
    [("label", JVal.jstr "Section 1")] [] []
    (some [Element.mk "a" "attribute" (some "amount") (some "Amount") [] [] [] none,
           Element.mk "b" "attribute" (some "notes") (some "Notes") [] [] [] none])

/-- C7 witness interpreter state: `c7WDoc` at the start of a batch. -/
def c7WSt : IState :=
  IState.mk c7WDoc.elements c7WDoc.modelAttrs [] 0

/-- C10 witness operation: a `bulk_replace` carrying both the color pair
and the literal pair. -/
def c10Op : Op :=
  { type := "bulk_replace", uids := some ["t"], find_color := some "red"
    replace_color := some "blue", find := some "red", replace := some "crimson" }

/-- C10 witness element: a Text node whose text mentions `red` both in a
styling declaration and as free text. -/
def c10El : Element :=
  Element.mk "t" "text" (some "text") none
    [("text", JVal.jstr "color: red")] [] [] none

mutual
/-- The name-correspondence relation of C7 between a clone source and
the transformed clone, for suffix `S`: same tag, pointwise-corresponding
children, and on `attribute` nodes a truthy source name `n` becomes
`n ++ S` while an absent or empty name is left unchanged. -/
def nameCorrE (S : String) : Element → Element → Bool
  | Element.mk _ et nm _ _ _ _ ch, Element.mk _ et' nm' _ _ _ _ ch' =>
    et' == et &&
      (nm' == (if et == "attribute" && truthyS nm then some (nm.getD "" ++ S) else nm)) &&
      (match ch, ch' with
       | none, none => true
       | some kids, some kids' => nameCorrF S kids kids'
       | _, _ => false)
/-- `nameCorrE` pointwise over child arrays. -/
def nameCorrF (S : String) : List Element → List Element → Bool
  | [], [] => true
  | e :: r, e' :: r' => nameCorrE S e e' && nameCorrF S r r'
  | _, _ => false
end

/-- The registry invariant on the interpreter's working state. -/
def invSt (st : IState) : Prop :=
  ∀ s ∈ attrNamesF st.elements, s ∈ regNames st.modelAttrs

/-- The field-name action of the clone transform on one name: a truthy
name gains the suffix, an empty one is left alone. -/
def sfx (S s : String) : String :=
  if s == "" then s else s ++ S

/-! ## Theorems -/

/-- Strong induction over forests of elements, with the inductive
hypothesis available for a node's child array. -/
theorem forest_strong_ind (P : List Element → Prop)
    (hnil : P [])
    (hcons : ∀ u et nm lb cfg sty vis ch rest,
      P (ch.getD []) → P rest → P (Element.mk u et nm lb cfg sty vis ch :: rest)) :
    ∀ l, P l := by
  have key : ∀ n, ∀ l : List Element, sizeOf l ≤ n → P l := by
    intro n
    induction n with
    | zero =>
      intro l hl
      cases l with
      | nil => exact hnil
      | cons e rest => simp at hl
    | succ n ih =>
      intro l hl
      cases l with
      | nil => exact hnil
      | cons e rest =>
        cases e with
        | mk u et nm lb cfg sty vis ch =>
          apply hcons
          · cases ch with
            | none => exact hnil
            | some kids =>
              apply ih
              simp at hl ⊢
              omega
          · apply ih
            simp at hl ⊢
            omega
  intro l
  exact key (sizeOf l) l (Nat.le_refl _)

theorem deepCopyF_id : ∀ l, deepCopyF l = l := by
  apply forest_strong_ind
  · rfl
  · intro u et nm lb cfg sty vis ch rest hch hrest
    cases ch with
    | none => simp [deepCopyF, deepCopyE, hrest]
    | some kids =>
      simp only [Option.getD] at hch
      simp [deepCopyF, deepCopyE, hrest, hch]

theorem deepCopyExport_id (d : ExportData) : deepCopyExport d = d := by
  cases d with
  | mk els reg => simp [deepCopyExport, deepCopyF_id]

theorem attrNamesF_cons (e : Element) (rest : List Element) :
    attrNamesF (e :: rest) = attrNamesE e ++ attrNamesF rest := by
  simp [attrNamesF]

theorem attrNamesE_mk (u et : String) (nm lb : Option String) (cfg sty vis : Smap)
    (ch : Option (List Element)) :
    attrNamesE (Element.mk u et nm lb cfg sty vis ch) =
      (if et == "attribute" then nm.toList else []) ++ attrNamesF (ch.getD []) := by
  cases ch with
  | none => simp [attrNamesE, attrNamesF]
  | some kids => simp [attrNamesE]

theorem attrNamesF_append (l1 l2 : List Element) :
    attrNamesF (l1 ++ l2) = attrNamesF l1 ++ attrNamesF l2 := by
  induction l1 with
  | nil => simp [attrNamesF]
  | cons e rest ih => simp [attrNamesF_cons, ih]

/-- Membership action of an in-place update through `updateFirstByUidO`:
when the pointwise update only adds names from `extra`, so does the tree
update. -/
theorem updateFirstO_attr (f : Element → Element) (extra : List String)
    (hf : ∀ e s, s ∈ attrNamesE (f e) → s ∈ attrNamesE e ∨ s ∈ extra) :
    ∀ (l : List Element) (uid : String) (l' : List Element),
      updateFirstByUidO f l uid = some l' →
      ∀ s ∈ attrNamesF l', s ∈ attrNamesF l ∨ s ∈ extra := by
  intro l uid
  refine updateFirstByUidO.induct f
    (fun e uid => ∀ e', updateFirstByUidE f e uid = some e' →
      ∀ s ∈ attrNamesE e', s ∈ attrNamesE e ∨ s ∈ extra)
    (fun l uid => ∀ l', updateFirstByUidO f l uid = some l' →
      ∀ s ∈ attrNamesF l', s ∈ attrNamesF l ∨ s ∈ extra)
    ?_ ?_ ?_ ?_ ?_ ?_ ?_ ?_ l uid
  · intro u et nm lb cfg sty vis uid kids kids1 hkids ih e' he' s hs
    simp only [updateFirstByUidE, hkids] at he'
    cases he'
    rw [attrNamesE_mk] at hs
    rw [attrNamesE_mk]
    simp only [Option.getD_some] at hs ⊢
    rcases List.mem_append.mp hs with h1 | h2
    · exact Or.inl (List.mem_append.mpr (Or.inl h1))
    · rcases ih kids1 hkids s h2 with h3 | h3
      · exact Or.inl (List.mem_append.mpr (Or.inr h3))
      · exact Or.inr h3
  · intro u et nm lb cfg sty vis uid kids hkids ih e' he'
    simp only [updateFirstByUidE, hkids] at he'
    exact Option.noConfusion he'
  · intro u et nm lb cfg sty vis uid e' he'
    simp only [updateFirstByUidE] at he'
    exact Option.noConfusion he'
  · intro uid l' h
    simp only [updateFirstByUidO] at h
    exact Option.noConfusion h
  · intro e rest uid huid l' h s hs
    simp only [updateFirstByUidO, huid, if_true] at h
    cases h
    rw [attrNamesF_cons] at hs
    rw [attrNamesF_cons]
    rcases List.mem_append.mp hs with h1 | h2
    · rcases hf e s h1 with h3 | h3
      · exact Or.inl (List.mem_append.mpr (Or.inl h3))
      · exact Or.inr h3
    · exact Or.inl (List.mem_append.mpr (Or.inr h2))
  · intro e rest uid huid e1 hE ih l' h s hs
    simp only [updateFirstByUidO, huid, if_false, Bool.false_eq_true, hE] at h
    cases h
    rw [attrNamesF_cons] at hs
    rw [attrNamesF_cons]
    rcases List.mem_append.mp hs with h1 | h2
    · rcases ih e1 hE s h1 with h3 | h3
      · exact Or.inl (List.mem_append.mpr (Or.inl h3))
      · exact Or.inr h3
    · exact Or.inl (List.mem_append.mpr (Or.inr h2))
  · intro e rest uid huid hE rest1 hrest ihE ihR l' h s hs
    simp only [updateFirstByUidO, huid, if_false, Bool.false_eq_true, hE, hrest] at h
    cases h
    rw [attrNamesF_cons] at hs
    rw [attrNamesF_cons]
    rcases List.mem_append.mp hs with h1 | h2
    · exact Or.inl (List.mem_append.mpr (Or.inl h1))
    · rcases ihR rest1 hrest s h2 with h3 | h3
      · exact Or.inl (List.mem_append.mpr (Or.inr h3))
      · exact Or.inr h3
  · intro e rest uid huid hE hrest ihE ihR l' h
    simp only [updateFirstByUidO, huid, if_false, Bool.false_eq_true, hE, hrest] at h
    exact Option.noConfusion h


/-- Membership action of detaching a subtree: every name in the
remainder or in the removed subtree was present before. -/
theorem removeFirst_attr :
    ∀ (l : List Element) (uid : String) (rem : Element) (l' : List Element),
      removeFirstByUid l uid = some (rem, l') →
      ∀ s, s ∈ attrNamesF l' ∨ s ∈ attrNamesE rem → s ∈ attrNamesF l := by
  intro l uid
  refine removeFirstByUid.induct
    (fun e uid => ∀ rem e', removeFirstByUidE e uid = some (rem, e') →
      ∀ s, s ∈ attrNamesE e' ∨ s ∈ attrNamesE rem → s ∈ attrNamesE e)
    (fun l uid => ∀ rem l', removeFirstByUid l uid = some (rem, l') →
      ∀ s, s ∈ attrNamesF l' ∨ s ∈ attrNamesE rem → s ∈ attrNamesF l)
    ?_ ?_ ?_ ?_ ?_ ?_ ?_ ?_ l uid
  · intro u et nm lb cfg sty vis uid kids rem0 kids1 hkids ih rem e' he' s hs
    simp only [removeFirstByUidE, hkids] at he'
    cases he'
    rw [attrNamesE_mk] at hs ⊢
    simp only [Option.getD_some] at hs ⊢
    rcases hs with h1 | h2
    · rcases List.mem_append.mp h1 with h3 | h4
      · exact List.mem_append.mpr (Or.inl h3)
      · exact List.mem_append.mpr
          (Or.inr (ih rem0 kids1 hkids s (Or.inl h4)))
    · exact List.mem_append.mpr (Or.inr (ih rem0 kids1 hkids s (Or.inr h2)))
  · intro u et nm lb cfg sty vis uid kids hkids ih rem e' he'
    simp only [removeFirstByUidE, hkids] at he'
    exact Option.noConfusion he'
  · intro u et nm lb cfg sty vis uid rem e' he'
    simp only [removeFirstByUidE] at he'
    exact Option.noConfusion he'
  · intro uid rem l' h
    simp only [removeFirstByUid] at h
    exact Option.noConfusion h
  · intro e rest uid huid rem l' h s hs
    simp only [removeFirstByUid, huid, if_true] at h
    cases h
    rw [attrNamesF_cons]
    rcases hs with h1 | h2
    · exact List.mem_append.mpr (Or.inr h1)
    · exact List.mem_append.mpr (Or.inl h2)
  · intro e rest uid huid rem0 e1 hE ih rem l' h s hs
    simp only [removeFirstByUid, huid, if_false, Bool.false_eq_true, hE] at h
    cases h
    rw [attrNamesF_cons]
    rcases hs with h1 | h2
    · rw [attrNamesF_cons] at h1
      rcases List.mem_append.mp h1 with h3 | h4
      · exact List.mem_append.mpr (Or.inl (ih rem0 e1 hE s (Or.inl h3)))
      · exact List.mem_append.mpr (Or.inr h4)
    · exact List.mem_append.mpr (Or.inl (ih rem0 e1 hE s (Or.inr h2)))
  · intro e rest uid huid hE rem0 rest1 hrest ihE ihR rem l' h s hs
    simp only [removeFirstByUid, huid, if_false, Bool.false_eq_true, hE, hrest] at h
    cases h
    rw [attrNamesF_cons]
    rcases hs with h1 | h2
    · rw [attrNamesF_cons] at h1
      rcases List.mem_append.mp h1 with h3 | h4
      · exact List.mem_append.mpr (Or.inl h3)
      · exact List.mem_append.mpr (Or.inr (ihR rem0 rest1 hrest s (Or.inl h4)))
    · exact List.mem_append.mpr (Or.inr (ihR rem0 rest1 hrest s (Or.inr h2)))
  · intro e rest uid huid hE hrest ihE ihR rem l' h
    simp only [removeFirstByUid, huid, if_false, Bool.false_eq_true, hE, hrest] at h
    exact Option.noConfusion h


/-- Membership action of a relative insertion: every name afterwards
was present before or comes from the inserted subtree. -/
theorem insertRel_attr (before : Bool) (x : Element) :
    ∀ (l : List Element) (uid : String) (l' : List Element),
      insertRelByUid before x l uid = some l' →
      ∀ s ∈ attrNamesF l', s ∈ attrNamesF l ∨ s ∈ attrNamesE x := by
  intro l uid
  refine insertRelByUid.induct before x
    (fun e uid => ∀ e', insertRelByUidE before x e uid = some e' →
      ∀ s ∈ attrNamesE e', s ∈ attrNamesE e ∨ s ∈ attrNamesE x)
    (fun l uid => ∀ l', insertRelByUid before x l uid = some l' →
      ∀ s ∈ attrNamesF l', s ∈ attrNamesF l ∨ s ∈ attrNamesE x)
    ?_ ?_ ?_ ?_ ?_ ?_ ?_ ?_ ?_ l uid
  · intro u et nm lb cfg sty vis uid kids kids1 hkids ih e' he' s hs
    simp only [insertRelByUidE, hkids] at he'
    cases he'
    rw [attrNamesE_mk] at hs ⊢
    simp only [Option.getD_some] at hs ⊢
    rcases List.mem_append.mp hs with h1 | h2
    · exact Or.inl (List.mem_append.mpr (Or.inl h1))
    · rcases ih kids1 hkids s h2 with h3 | h3
      · exact Or.inl (List.mem_append.mpr (Or.inr h3))
      · exact Or.inr h3
  · intro u et nm lb cfg sty vis uid kids hkids ih e' he'
    simp only [insertRelByUidE, hkids] at he'
    exact Option.noConfusion he'
  · intro u et nm lb cfg sty vis uid e' he'
    simp only [insertRelByUidE] at he'
    exact Option.noConfusion he'
  · intro uid l' h
    simp only [insertRelByUid] at h
    exact Option.noConfusion h
  · intro e rest uid huid hb l' h s hs
    simp only [insertRelByUid, huid, hb, if_true] at h
    cases h
    rw [attrNamesF_cons] at hs
    rcases List.mem_append.mp hs with h1 | h2
    · exact Or.inr h1
    · left
      rw [attrNamesF_cons]
      exact h2
  · intro e rest uid huid hb l' h s hs
    simp only [insertRelByUid, huid, hb, if_true, if_false, Bool.false_eq_true] at h
    cases h
    rw [attrNamesF_cons, attrNamesF_cons] at hs
    rcases List.mem_append.mp hs with h1 | h2
    · left
      rw [attrNamesF_cons]
      exact List.mem_append.mpr (Or.inl h1)
    · rcases List.mem_append.mp h2 with h3 | h4
      · exact Or.inr h3
      · left
        rw [attrNamesF_cons]
        exact List.mem_append.mpr (Or.inr h4)
  · intro e rest uid huid e1 hE ih l' h s hs
    simp only [insertRelByUid, huid, if_false, Bool.false_eq_true, hE] at h
    cases h
    rw [attrNamesF_cons] at hs
    rw [attrNamesF_cons]
    rcases List.mem_append.mp hs with h1 | h2
    · rcases ih e1 hE s h1 with h3 | h3
      · exact Or.inl (List.mem_append.mpr (Or.inl h3))
      · exact Or.inr h3
    · exact Or.inl (List.mem_append.mpr (Or.inr h2))
  · intro e rest uid huid hE rest1 hrest ihE ihR l' h s hs
    simp only [insertRelByUid, huid, if_false, Bool.false_eq_true, hE, hrest] at h
    cases h
    rw [attrNamesF_cons] at hs
    rw [attrNamesF_cons]
    rcases List.mem_append.mp hs with h1 | h2
    · exact Or.inl (List.mem_append.mpr (Or.inl h1))
    · rcases ihR rest1 hrest s h2 with h3 | h3
      · exact Or.inl (List.mem_append.mpr (Or.inr h3))
      · exact Or.inr h3
  · intro e rest uid huid hE hrest ihE ihR l' h
    simp only [insertRelByUid, huid, if_false, Bool.false_eq_true, hE, hrest] at h
    exact Option.noConfusion h


/-- A located element's attribute names are names of the forest. -/
theorem findByUid_attr :
    ∀ (l : List Element) (uid : String) (e : Element),
      findElementByUid l uid = some e →
      ∀ s ∈ attrNamesE e, s ∈ attrNamesF l := by
  intro l uid
  refine findElementByUid.induct
    (fun e uid => ∀ x, findElementByUidE e uid = some x →
      ∀ s ∈ attrNamesE x, s ∈ attrNamesE e)
    (fun l uid => ∀ x, findElementByUid l uid = some x →
      ∀ s ∈ attrNamesE x, s ∈ attrNamesF l)
    ?_ ?_ ?_ ?_ ?_ ?_ l uid
  · intro u et nm lb cfg sty vis ch uid huid x hx s hs
    unfold findElementByUidE at hx
    rw [if_pos huid] at hx
    cases hx
    exact hs
  · intro u et nm lb cfg sty vis uid huid kids ih x hx s hs
    unfold findElementByUidE at hx
    rw [if_neg huid] at hx
    rw [attrNamesE_mk]
    simp only [Option.getD_some]
    exact List.mem_append.mpr (Or.inr (ih x hx s hs))
  · intro u et nm lb cfg sty vis uid huid x hx
    unfold findElementByUidE at hx
    rw [if_neg huid] at hx
    exact Option.noConfusion hx
  · intro uid x hx
    simp only [findElementByUid] at hx
    exact Option.noConfusion hx
  · intro e rest uid x hE ih y hy s hs
    simp only [findElementByUid, hE] at hy
    cases hy
    rw [attrNamesF_cons]
    exact List.mem_append.mpr (Or.inl (ih x hE s hs))
  · intro e rest uid hE ihE ihR y hy s hs
    simp only [findElementByUid, hE] at hy
    rw [attrNamesF_cons]
    exact List.mem_append.mpr (Or.inr (ihR y hy s hs))


/-- Strong induction over single elements, with the inductive hypothesis
available for the children. -/
theorem element_strong_ind (P : Element → Prop)
    (h : ∀ u et nm lb cfg sty vis ch,
      (∀ e ∈ ch.getD [], P e) → P (Element.mk u et nm lb cfg sty vis ch)) :
    ∀ e, P e := by
  have key : ∀ l : List Element, ∀ e ∈ l, P e := by
    apply forest_strong_ind (P := fun l => ∀ e ∈ l, P e)
    · intro e he
      simp at he
    · intro u et nm lb cfg sty vis ch rest hch hrest e he
      rcases List.mem_cons.mp he with h1 | h2
      · subst h1
        exact h u et nm lb cfg sty vis ch hch
      · exact hrest e h2
  intro e
  exact key [e] e (List.mem_singleton.mpr rfl)

theorem attrNamesE_pushChild (x e : Element) :
    attrNamesE (pushChild x e) = attrNamesE e ++ attrNamesE x := by
  cases e with
  | mk u et nm lb cfg sty vis ch =>
    rw [pushChild, attrNamesE_mk, attrNamesE_mk]
    simp [attrNamesF_append, attrNamesF]

theorem attrNamesE_unshiftChild (x e : Element) (s : String) :
    s ∈ attrNamesE (unshiftChild x e) → s ∈ attrNamesE e ∨ s ∈ attrNamesE x := by
  cases e with
  | mk u et nm lb cfg sty vis ch =>
    rw [unshiftChild, attrNamesE_mk, attrNamesE_mk]
    simp only [Option.getD, attrNamesF_cons]
    intro hs
    rcases List.mem_append.mp hs with h1 | h2
    · exact Or.inl (List.mem_append.mpr (Or.inl h1))
    · rcases List.mem_append.mp h2 with h3 | h4
      · exact Or.inr h3
      · exact Or.inl (List.mem_append.mpr (Or.inr h4))

theorem attrNamesE_editElement (op : Op) (e : Element) :
    attrNamesE (editElement op e) = attrNamesE e := by
  cases e with
  | mk u et nm lb cfg sty vis ch =>
    rw [editElement, attrNamesE_mk, attrNamesE_mk]

theorem attrNamesE_bulkUpdateEl (op : Op) (e : Element) :
    attrNamesE (bulkUpdateEl op e) = attrNamesE e := by
  cases e with
  | mk u et nm lb cfg sty vis ch =>
    rw [bulkUpdateEl, attrNamesE_mk, attrNamesE_mk]

theorem attrNamesE_createGroup (label : Option String) (cfgO styO visO : Option Smap)
    (cond : Option Cond) (uid : String) :
    attrNamesE (createGroupElement label cfgO styO visO cond uid) = [] := by
  rw [createGroupElement, attrNamesE_mk]
  simp [attrNamesF]

theorem attrNamesE_createText (html : Option String) (styO visO : Option Smap)
    (uid : String) :
    attrNamesE (createTextElement html styO visO uid) = [] := by
  rw [createTextElement, attrNamesE_mk]
  simp [attrNamesF]

theorem attrNamesE_createAttribute (fieldName label : Option String) (uid : String) :
    attrNamesE (createAttributeElement fieldName label uid) = fieldName.toList := by
  rw [createAttributeElement, attrNamesE_mk]
  simp [attrNamesF]

theorem updateFirst_attr (f : Element → Element) (extra : List String)
    (hf : ∀ e s, s ∈ attrNamesE (f e) → s ∈ attrNamesE e ∨ s ∈ extra)
    (l : List Element) (uid : String) :
    ∀ s ∈ attrNamesF (updateFirstByUid l uid f), s ∈ attrNamesF l ∨ s ∈ extra := by
  intro s hs
  rw [updateFirstByUid] at hs
  cases h : updateFirstByUidO f l uid with
  | none =>
    rw [h] at hs
    exact Or.inl hs
  | some l' =>
    rw [h] at hs
    exact updateFirstO_attr f extra hf l uid l' h s hs

theorem insertNewAt_attr (l : List Element) (isRoot : Bool) (position : Option String)
    (targetUid : Option String) (x : Element) :
    ∀ s ∈ attrNamesF (insertNewAt l isRoot position targetUid x),
      s ∈ attrNamesF l ∨ s ∈ attrNamesE x := by
  intro s hs
  rw [insertNewAt.eq_def] at hs
  split at hs
  · split at hs
    · rw [attrNamesF_append] at hs
      rcases List.mem_append.mp hs with h1 | h2
      · exact Or.inl h1
      · right
        simpa [attrNamesF] using h2
    · split at hs
      · rw [attrNamesF_cons] at hs
        rcases List.mem_append.mp hs with h1 | h2
        · exact Or.inr h1
        · exact Or.inl h2
      · rw [attrNamesF_append] at hs
        rcases List.mem_append.mp hs with h1 | h2
        · exact Or.inl h1
        · right
          simpa [attrNamesF] using h2
  · split at hs
    · cases targetUid with
      | none => exact Or.inl hs
      | some tu =>
        apply updateFirst_attr (pushChild x) (attrNamesE x) _ l tu s hs
        intro e s' hs'
        rw [attrNamesE_pushChild] at hs'
        exact List.mem_append.mp hs'
    · split at hs
      · cases targetUid with
        | none => exact Or.inl hs
        | some tu =>
          apply updateFirst_attr (unshiftChild x) (attrNamesE x) _ l tu s hs
          intro e s' hs'
          exact attrNamesE_unshiftChild x e s' hs'
      · cases targetUid with
        | none => exact Or.inl hs
        | some tu =>
          dsimp only at hs
          cases h : insertRelByUid (position == some "before") x l tu with
          | none =>
            rw [h] at hs
            exact Or.inl hs
          | some l' =>
            rw [h] at hs
            exact insertRel_attr (position == some "before") x l tu l' h s hs

/-- `regNames` distributes over registry concatenation. -/
theorem regNames_append (r1 r2 : List ModelAttr) :
    regNames (r1 ++ r2) = regNames r1 ++ regNames r2 := by
  simp [regNames]

/-- A successful registry `find` on a name implies membership. -/
theorem find_name_mem (reg : List ModelAttr) (n : String)
    (h : (reg.find? (fun a => a.name == some n)).isSome = true) :
    n ∈ regNames reg := by
  rcases Option.isSome_iff_exists.mp h with ⟨a, ha⟩
  have hmem : a ∈ reg := List.mem_of_find?_eq_some ha
  have hname : a.name = some n := by
    have hp := List.find?_some ha
    simpa using hp
  rw [regNames]
  refine List.mem_flatMap.mpr ⟨a, hmem, ?_⟩
  rw [hname]
  exact List.mem_singleton.mpr rfl

/-- One step of the registry-creation loop never loses names. -/
theorem ensureReg_step_mono (reg : List ModelAttr) (n : String) :
    ∀ s ∈ regNames reg,
      s ∈ regNames (if (reg.find? (fun a => a.name == some n)).isSome then reg
        else reg ++ [createModelAttribute (some n) (some n) "string"]) := by
  intro s hs
  split
  · exact hs
  · rw [regNames_append]
    exact List.mem_append.mpr (Or.inl hs)

/-- The registry-creation loop never loses names. -/
theorem ensureReg_mono :
    ∀ (names : List String) (reg : List ModelAttr),
      ∀ s ∈ regNames reg, s ∈ regNames (ensureRegEntries reg names) := by
  intro names
  induction names with
  | nil =>
    intro reg s hs
    exact hs
  | cons n rest ih =>
    intro reg s hs
    rw [ensureRegEntries, List.foldl_cons]
    exact ih _ s (ensureReg_step_mono reg n s hs)

/-- The registry-creation loop registers every collected name. -/
theorem ensureReg_adds :
    ∀ (names : List String) (reg : List ModelAttr),
      ∀ n ∈ names, n ∈ regNames (ensureRegEntries reg names) := by
  intro names
  induction names with
  | nil =>
    intro reg n hn
    simp at hn
  | cons m rest ih =>
    intro reg n hn
    rw [ensureRegEntries, List.foldl_cons]
    rcases List.mem_cons.mp hn with h1 | h2
    · subst h1
      apply ensureReg_mono rest
      split
      · exact find_name_mem _ _ (by assumption)
      · rw [regNames_append]
        refine List.mem_append.mpr (Or.inr ?_)
        simp [regNames, createModelAttribute]
    · exact ih _ n h2

/-- The `add` branch preserves the registry invariant. -/
theorem invSt_applyAdd (st : IState) (op : Op) (isRoot : Bool) (tU : Option String)
    (h : invSt st) : invSt (applyAdd st op isRoot tU) := by
  rw [applyAdd]
  by_cases hg : (op.element_type == some "group") = true
  · simp only [hg, if_true]
    intro s hs
    dsimp only at hs
    rcases insertNewAt_attr _ _ _ _ _ s hs with h1 | h2
    · exact h s h1
    · rw [attrNamesE_createGroup] at h2
      simp at h2
  · simp only [hg, if_false, Bool.false_eq_true]
    by_cases ht : (op.element_type == some "text") = true
    · simp only [ht, if_true]
      intro s hs
      dsimp only at hs
      rcases insertNewAt_attr _ _ _ _ _ s hs with h1 | h2
      · exact h s h1
      · rw [attrNamesE_createText] at h2
        simp at h2
    · simp only [ht, if_false, Bool.false_eq_true]
      by_cases hf : (op.element_type == some "field") = true
      · simp only [hf, if_true]
        have hreg : ∀ t ∈ regNames st.modelAttrs,
            t ∈ regNames (if (st.modelAttrs.find? (fun a => a.name == op.field_name)).isSome
              then st.modelAttrs
              else st.modelAttrs ++
                [createModelAttribute op.field_name op.field_name
                  (if truthyS op.field_type then op.field_type.getD "" else "string")]) := by
          intro t htm
          split
          · exact htm
          · rw [regNames_append]
            exact List.mem_append.mpr (Or.inl htm)
        have hnew : ∀ t ∈ (op.field_name).toList,
            t ∈ regNames (if (st.modelAttrs.find? (fun a => a.name == op.field_name)).isSome
              then st.modelAttrs
              else st.modelAttrs ++
                [createModelAttribute op.field_name op.field_name
                  (if truthyS op.field_type then op.field_type.getD "" else "string")]) := by
          intro t htm
          cases hn : op.field_name with
          | none =>
            rw [hn] at htm
            simp at htm
          | some n =>
            rw [hn] at htm
            have htn : t = n := by simpa using htm
            subst htn
            split
            · rename_i hfound
              exact find_name_mem _ _ hfound
            · rw [regNames_append]
              refine List.mem_append.mpr (Or.inr ?_)
              simp [regNames, createModelAttribute, hn]
        intro s hs
        dsimp only at hs
        rcases insertNewAt_attr _ _ _ _ _ s hs with h1 | h2
        · exact hreg s (h s h1)
        · rw [attrNamesE_createAttribute] at h2
          exact hnew s h2
      · simp only [hf, if_false, Bool.false_eq_true]
        exact h

/-- The `edit` branch preserves the registry invariant. -/
theorem invSt_applyEdit (st : IState) (op : Op) (tU : Option String)
    (h : invSt st) : invSt (applyEdit st op tU) := by
  rw [applyEdit.eq_def]
  have hpt : ∀ (e : Element) (s' : String), s' ∈ attrNamesE (editElement op e) →
      s' ∈ attrNamesE e ∨ s' ∈ ([] : List String) := by
    intro e s' hs'
    rw [attrNamesE_editElement] at hs'
    exact Or.inl hs'
  cases tU with
  | none => exact h
  | some tu =>
    intro s hs
    dsimp only at hs
    rcases updateFirst_attr (editElement op) [] hpt st.elements tu s hs with h1 | h1
    · exact h s h1
    · simp at h1

/-- The `move` branch preserves the registry invariant (also on the
paths that drop the detached subtree). -/
theorem invSt_applyMove (st : IState) (op : Op) (tU : Option String)
    (h : invSt st) : invSt (applyMove st op tU) := by
  rw [applyMove.eq_def]
  cases tU with
  | none => exact h
  | some tu =>
    dsimp only
    cases hrem : removeFirstByUid st.elements tu with
    | none => exact h
    | some p =>
      cases p with
      | mk removed els1 =>
        dsimp only
        intro s hs
        dsimp only at hs
        rcases insertNewAt_attr _ _ _ _ _ s hs with h1 | h2
        · exact h s (removeFirst_attr st.elements tu removed els1 hrem s (Or.inl h1))
        · exact h s (removeFirst_attr st.elements tu removed els1 hrem s (Or.inr h2))

/-- The `delete` branch preserves the registry invariant. -/
theorem invSt_applyDelete (st : IState) (tU : Option String)
    (h : invSt st) : invSt (applyDelete st tU) := by
  rw [applyDelete.eq_def]
  cases tU with
  | none => exact h
  | some tu =>
    dsimp only
    cases hrem : removeFirstByUid st.elements tu with
    | none => exact h
    | some p =>
      cases p with
      | mk removed els1 =>
        intro s hs
        dsimp only at hs
        simp only [Option.map_some, Option.getD] at hs
        exact h s (removeFirst_attr st.elements tu removed els1 hrem s (Or.inl hs))

/-- The `bulk_replace` branch preserves the registry invariant. -/
theorem invSt_applyBulk (st : IState) (op : Op)
    (h : invSt st) : invSt (applyBulk st op) := by
  rw [applyBulk]
  have hpt : ∀ (e : Element) (t : String), t ∈ attrNamesE (bulkUpdateEl op e) →
      t ∈ attrNamesE e ∨ t ∈ ([] : List String) := by
    intro e t ht
    rw [attrNamesE_bulkUpdateEl] at ht
    exact Or.inl ht
  have key : ∀ (uids : List String) (els : List Element),
      (∀ s ∈ attrNamesF els, s ∈ regNames st.modelAttrs) →
      ∀ s ∈ attrNamesF (uids.foldl
        (fun els uid => updateFirstByUid els uid (bulkUpdateEl op)) els),
        s ∈ regNames st.modelAttrs := by
    intro uids
    induction uids with
    | nil =>
      intro els hels s hs
      exact hels s hs
    | cons uid rest ih =>
      intro els hels s hs
      rw [List.foldl_cons] at hs
      apply ih _ _ s hs
      intro s' hs'
      rcases updateFirst_attr (bulkUpdateEl op) [] hpt els uid s' hs' with h1 | h1
      · exact hels s' h1
      · simp at h1
  exact key _ _ h

/-- Unfolding of the clone transform on a childless node. -/
theorem transformElement_none_eq (lf lr : Option String) (S u et : String)
    (nm lb : Option String) (cfg sty vis : Smap) (n : Nat) :
    transformElement lf lr S (Element.mk u et nm lb cfg sty vis none) n =
      (Element.mk (genUid n) et
        (if S != "" && et == "attribute" && truthyS nm then some (nm.getD "" ++ S) else nm)
        (if truthyS lf && truthyS lr && truthyS lb then
          some (literalReplaceCI (lb.getD "") (lf.getD "") (lr.getD ""))
         else lb)
        (if truthyS lf && truthyS lr then
          match mget cfg "label" with
          | some (JVal.jstr s) =>
            if s != "" then
              mset cfg "label" (JVal.jstr (literalReplaceCI s (lf.getD "") (lr.getD "")))
            else cfg
          | _ => cfg
         else cfg) sty vis none, n + 1) := rfl

/-- Unfolding of the clone transform on a node with a child array. -/
theorem transformElement_some_eq (lf lr : Option String) (S u et : String)
    (nm lb : Option String) (cfg sty vis : Smap) (kids : List Element) (n : Nat) :
    transformElement lf lr S (Element.mk u et nm lb cfg sty vis (some kids)) n =
      (Element.mk (genUid n) et
        (if S != "" && et == "attribute" && truthyS nm then some (nm.getD "" ++ S) else nm)
        (if truthyS lf && truthyS lr && truthyS lb then
          some (literalReplaceCI (lb.getD "") (lf.getD "") (lr.getD ""))
         else lb)
        (if truthyS lf && truthyS lr then
          match mget cfg "label" with
          | some (JVal.jstr s) =>
            if s != "" then
              mset cfg "label" (JVal.jstr (literalReplaceCI s (lf.getD "") (lr.getD "")))
            else cfg
          | _ => cfg
         else cfg) sty vis (some (transformElementF lf lr S kids (n + 1)).1),
        (transformElementF lf lr S kids (n + 1)).2) := rfl

/-- Unfolding of the clone transform on a non-empty child array. -/
theorem transformElementF_cons_eq (lf lr : Option String) (S : String)
    (e : Element) (rest : List Element) (n : Nat) :
    transformElementF lf lr S (e :: rest) n =
      ((transformElement lf lr S e n).1 ::
        (transformElementF lf lr S rest (transformElement lf lr S e n).2).1,
       (transformElementF lf lr S rest (transformElement lf lr S e n).2).2) := rfl

/-- The name field of a transformed node, projected to attribute-name
lists, is the `sfx`-image of the source's. -/
theorem sfx_name_names (S et : String) (nm : Option String) :
    (if et == "attribute" then
      (if S != "" && et == "attribute" && truthyS nm then some (nm.getD "" ++ S)
       else nm).toList
     else []) =
    (if et == "attribute" then nm.toList else []).map (sfx S) := by
  by_cases het : (et == "attribute") = true
  · cases nm with
    | none => simp [het, truthyS]
    | some s =>
      by_cases hs : s = ""
      · subst hs
        simp [het, truthyS, sfx]
      · by_cases hS : S = ""
        · subst hS
          simp [het, truthyS, hs, sfx, String.append_empty]
        · simp [het, truthyS, hs, hS, sfx]
  · simp [het]

/-- The clone transform maps every attribute name through `sfx`:
non-empty names gain the suffix, empty ones are left alone. -/
theorem attrNames_transform (lf lr : Option String) (S : String) :
    ∀ e : Element, ∀ n : Nat,
      attrNamesE (transformElement lf lr S e n).1 = (attrNamesE e).map (sfx S) := by
  apply element_strong_ind
    (P := fun e => ∀ n : Nat,
      attrNamesE (transformElement lf lr S e n).1 = (attrNamesE e).map (sfx S))
  intro u et nm lb cfg sty vis ch ihkids n
  cases ch with
  | none =>
    rw [transformElement_none_eq]
    dsimp only
    rw [attrNamesE_mk, attrNamesE_mk]
    simp only [Option.getD_none, Option.getD_some, attrNamesF, List.append_nil, List.map_append]
    exact sfx_name_names S et nm
  | some kids =>
    rw [transformElement_some_eq]
    dsimp only
    rw [attrNamesE_mk, attrNamesE_mk]
    simp only [Option.getD_some, List.map_append]
    have hkids : attrNamesF (transformElementF lf lr S kids (n + 1)).1 =
        (attrNamesF kids).map (sfx S) := by
      have key : ∀ (l : List Element),
          (∀ e ∈ l, ∀ n : Nat,
            attrNamesE (transformElement lf lr S e n).1 = (attrNamesE e).map (sfx S)) →
          ∀ m : Nat, attrNamesF (transformElementF lf lr S l m).1 =
            (attrNamesF l).map (sfx S) := by
        intro l
        induction l with
        | nil =>
          intro _ m
          simp [transformElementF, attrNamesF]
        | cons e rest ihl =>
          intro hpt m
          rw [transformElementF_cons_eq]
          dsimp only
          rw [attrNamesF_cons, attrNamesF_cons, List.map_append]
          rw [hpt e (List.mem_cons_self e rest) m]
          rw [ihl (fun x hx => hpt x (List.mem_cons_of_mem e hx)) _]
      exact key kids ihkids (n + 1)
    rw [hkids, sfx_name_names S et nm]

/-- `attrNames_transform` over a child array. -/
theorem attrNames_transformF (lf lr : Option String) (S : String) :
    ∀ (l : List Element) (n : Nat),
      attrNamesF (transformElementF lf lr S l n).1 = (attrNamesF l).map (sfx S) := by
  intro l
  induction l with
  | nil =>
    intro n
    simp [transformElementF, attrNamesF]
  | cons e rest ih =>
    intro n
    rw [transformElementF_cons_eq]
    dsimp only
    rw [attrNamesF_cons, attrNamesF_cons, List.map_append,
      attrNames_transform lf lr S e n, ih]

/-- Unfolding of `collectFieldNames` on a childless node. -/
theorem collectFieldNames_none_eq (u et : String) (nm lb : Option String)
    (cfg sty vis : Smap) :
    collectFieldNames (Element.mk u et nm lb cfg sty vis none) =
      (if et == "attribute" && truthyS nm then [nm.getD ""] else []) := rfl

/-- Unfolding of `collectFieldNames` on a node with a child array. -/
theorem collectFieldNames_some_eq (u et : String) (nm lb : Option String)
    (cfg sty vis : Smap) (kids : List Element) :
    collectFieldNames (Element.mk u et nm lb cfg sty vis (some kids)) =
      (if et == "attribute" && truthyS nm then [nm.getD ""] else []) ++
        collectFieldNamesF kids := rfl

/-- The head contribution of `collectFieldNames` is the non-empty
filter of the head contribution of `attrNamesE`. -/
theorem collect_head_eq (et : String) (nm : Option String) :
    (if et == "attribute" && truthyS nm then [nm.getD ""] else []) =
      (if et == "attribute" then nm.toList else []).filter (fun s => s != "") := by
  by_cases het : (et == "attribute") = true
  · cases nm with
    | none => simp [het, truthyS]
    | some s =>
      by_cases hs : s = ""
      · subst hs
        simp [het, truthyS]
      · simp [het, truthyS, hs]
  · simp [het]

/-- `collectFieldNames` collects exactly the non-empty attribute names
of the subtree. -/
theorem collectFieldNames_eq :
    ∀ e : Element, collectFieldNames e = (attrNamesE e).filter (fun s => s != "") := by
  apply element_strong_ind
    (P := fun e => collectFieldNames e = (attrNamesE e).filter (fun s => s != ""))
  intro u et nm lb cfg sty vis ch ihkids
  have hkids : ∀ (l : List Element),
      (∀ e ∈ l, collectFieldNames e = (attrNamesE e).filter (fun s => s != "")) →
      collectFieldNamesF l = (attrNamesF l).filter (fun s => s != "") := by
    intro l
    induction l with
    | nil =>
      intro _
      simp [collectFieldNamesF, attrNamesF]
    | cons e rest ihl =>
      intro hpt
      rw [collectFieldNamesF, attrNamesF_cons, List.filter_append]
      rw [hpt e (List.mem_cons_self e rest),
        ihl (fun x hx => hpt x (List.mem_cons_of_mem e hx))]
  cases ch with
  | none =>
    rw [collectFieldNames_none_eq, attrNamesE_mk]
    simp only [Option.getD_none, attrNamesF, List.append_nil]
    exact collect_head_eq et nm
  | some kids =>
    rw [collectFieldNames_some_eq, attrNamesE_mk]
    simp only [Option.getD_some, List.filter_append]
    rw [collect_head_eq et nm, hkids kids ihkids]

/-- Suffixing with the empty suffix is the identity. -/
theorem sfx_empty (t : String) : sfx "" t = t := by
  rw [sfx]
  split
  · rfl
  · exact String.append_empty t

/-- Appending to a non-empty string stays non-empty. -/
theorem append_ne_empty (t S : String) (ht : t ≠ "") : t ++ S ≠ "" := by
  intro heq
  apply ht
  have hdata : (t ++ S).data = t.data ++ S.data := String.data_append t S
  rw [heq] at hdata
  have hnil : t.data = [] := (List.append_eq_nil.mp hdata.symm).1
  cases t with
  | mk ld => simp at hnil; rw [hnil]

/-- Optional-uid variant of findByUid_attr. -/
theorem findByUidO_attr (l : List Element) (o : Option String) (e : Element)
    (h : findElementByUidO l o = some e) :
    ∀ s ∈ attrNamesE e, s ∈ attrNamesF l := by
  cases o with
  | none => simp [findElementByUidO] at h
  | some uid => exact findByUid_attr l uid e h

/-- clone_subtree preserves the registry invariant: every attribute name of
the cloned subtree is either an unsuffixed old name or gets registered. -/
theorem invSt_applyCloneSubtree (st : IState) (op : Op)
    (h : invSt st) : invSt (applyCloneSubtree st op) := by
  rw [applyCloneSubtree.eq_def]
  cases hfind : findElementByUidO st.elements op.source_uid with
  | none => exact h
  | some sourceEl =>
    dsimp only
    intro s hs
    dsimp only at hs
    have hsrc := findByUidO_attr st.elements op.source_uid sourceEl hfind
    have hcl : ∀ t ∈ attrNamesE (transformElement op.label_find op.label_replace
        (op.field_suffix.getD "") sourceEl st.counter).1,
        t ∈ regNames (if op.field_suffix.getD "" != "" then
          ensureRegEntries st.modelAttrs (collectFieldNames
            (transformElement op.label_find op.label_replace (op.field_suffix.getD "")
              sourceEl st.counter).1)
          else st.modelAttrs) := by
      intro t htm
      rw [attrNames_transform] at htm
      rcases List.mem_map.mp htm with ⟨t0, ht0, hteq⟩
      by_cases hS : (op.field_suffix.getD "" != "") = true
      · simp only [hS, if_true]
        by_cases ht0e : t0 = ""
        · subst ht0e
          have : t = "" := by rw [← hteq, sfx]; simp
          subst this
          exact ensureReg_mono _ _ "" (h "" (hsrc "" ht0))
        · have htne : t ≠ "" := by
            rw [← hteq, sfx, if_neg (by simpa using ht0e)]
            exact append_ne_empty t0 _ (by simpa using ht0e)
          apply ensureReg_adds
          rw [collectFieldNames_eq]
          apply List.mem_filter.mpr
          constructor
          · rw [attrNames_transform]
            exact List.mem_map.mpr ⟨t0, ht0, hteq⟩
          · simpa using htne
      · simp only [hS, if_false, Bool.false_eq_true]
        have hSe : op.field_suffix.getD "" = "" := by simpa using hS
        rw [hSe] at hteq
        rw [sfx_empty] at hteq
        subst hteq
        exact h _ (hsrc _ ht0)
    have hold : ∀ t ∈ regNames st.modelAttrs,
        t ∈ regNames (if op.field_suffix.getD "" != "" then
          ensureRegEntries st.modelAttrs (collectFieldNames
            (transformElement op.label_find op.label_replace (op.field_suffix.getD "")
              sourceEl st.counter).1)
          else st.modelAttrs) := by
      intro t htm
      split
      · exact ensureReg_mono _ _ t htm
      · exact htm
    cases hsu : op.source_uid with
    | none =>
      rw [hsu] at hs
      dsimp only at hs
      exact hold s (h s hs)
    | some su =>
      rw [hsu] at hs
      dsimp only at hs
      cases hins : insertRelByUid (posOrAfter op.position == "before")
          (transformElement op.label_find op.label_replace (op.field_suffix.getD "")
            sourceEl st.counter).1 st.elements su with
      | none =>
        rw [hins] at hs
        dsimp only [Option.getD] at hs
        exact hold s (h s hs)
      | some l' =>
        rw [hins] at hs
        dsimp only [Option.getD] at hs
        rcases insertRel_attr _ _ st.elements su l' hins s hs with h1 | h2
        · exact hold s (h s h1)
        · exact hcl s h2

/-- Every branch of the dispatcher except replace_subtree preserves the
registry invariant. -/
theorem invSt_applyOp (st : IState) (op : Op)
    (h : invSt st) (hne : op.type ≠ "replace_subtree") : invSt (applyOp st op) := by
  rw [applyOp]
  by_cases h1 : (op.type == "add") = true
  · simp only [h1, if_true]
    exact invSt_applyAdd _ _ _ _ h
  · simp only [h1, if_false, Bool.false_eq_true]
    by_cases h2 : (op.type == "edit") = true
    · simp only [h2, if_true]
      exact invSt_applyEdit _ _ _ h
    · simp only [h2, if_false, Bool.false_eq_true]
      by_cases h3 : (op.type == "move") = true
      · simp only [h3, if_true]
        exact invSt_applyMove _ _ _ h
      · simp only [h3, if_false, Bool.false_eq_true]
        by_cases h4 : (op.type == "delete") = true
        · simp only [h4, if_true]
          exact invSt_applyDelete _ _ h
        · simp only [h4, if_false, Bool.false_eq_true]
          by_cases h5 : (op.type == "bulk_replace") = true
          · simp only [h5, if_true]
            exact invSt_applyBulk _ _ h
          · simp only [h5, if_false, Bool.false_eq_true]
            by_cases h6 : (op.type == "replace_subtree") = true
            · exact absurd (eq_of_beq h6) hne
            · simp only [h6, if_false, Bool.false_eq_true]
              by_cases h7 : (op.type == "clone_subtree") = true
              · simp only [h7, if_true]
                exact invSt_applyCloneSubtree _ _ h
              · simp only [h7, if_false, Bool.false_eq_true]
                exact h

/-- Folding a batch of operations without replace_subtree preserves the
registry invariant. -/
theorem invSt_foldl :
    ∀ (ops : List Op) (st : IState), invSt st →
      (∀ op ∈ ops, op.type ≠ "replace_subtree") →
      invSt (ops.foldl applyOp st) := by
  intro ops
  induction ops with
  | nil =>
    intro st h _
    exact h
  | cons op rest ih =>
    intro st h hops
    rw [List.foldl_cons]
    exact ih _ (invSt_applyOp st op h (hops op (List.mem_cons_self op rest)))
      (fun o ho => hops o (List.mem_cons_of_mem op ho))

/-- The boolean registry invariant coincides with name membership. -/
theorem regInvB_iff (d : ExportData) :
    regInvB d = true ↔ ∀ s ∈ attrNamesF d.elements, s ∈ regNames d.modelAttrs := by
  rw [regInvB, List.all_eq_true]
  constructor
  · intro h s hs
    exact List.mem_of_elem_eq_true (h s hs)
  · intro h s hs
    exact List.elem_eq_true_of_mem (h s hs)

/-- `mget` after `mset` at the same key. -/
theorem mget_mset_self (m : Smap) (k : String) (v : JVal) :
    mget (mset m k v) k = some v := by
  induction m with
  | nil => simp [mget, mset]
  | cons kv rest ih =>
    obtain ⟨k1, v1⟩ := kv
    by_cases h : (k1 == k) = true
    · simp [mset, h, mget]
    · simp [mset, h, mget, ih]

/-- `mget` after `mset` at a different key. -/
theorem mget_mset_ne (m : Smap) (k k' : String) (v : JVal) (h : (k == k') = false) :
    mget (mset m k v) k' = mget m k' := by
  induction m with
  | nil => simp [mget, mset, h]
  | cons kv rest ih =>
    obtain ⟨k1, v1⟩ := kv
    by_cases h1 : (k1 == k) = true
    · have hk1 : k1 = k := eq_of_beq h1
      subst hk1
      simp [mset, mget, h]
    · simp [mset, h1, mget, ih]

/-- Setting `required` leaves `text` unread. -/
theorem mget_mset_req (m : Smap) (v : JVal) :
    mget (mset m "required" v) "text" = mget m "text" :=
  mget_mset_ne m "required" "text" v (by decide)

/-- Setting `read_only` leaves `text` unread. -/
theorem mget_mset_ro (m : Smap) (v : JVal) :
    mget (mset m "read_only" v) "text" = mget m "text" :=
  mget_mset_ne m "read_only" "text" v (by decide)

/-- Setting `collapsible` leaves `text` unread. -/
theorem mget_mset_col (m : Smap) (v : JVal) :
    mget (mset m "collapsible" v) "text" = mget m "text" :=
  mget_mset_ne m "collapsible" "text" v (by decide)

/-- Setting `show_in_toc` leaves `text` unread. -/
theorem mget_mset_toc (m : Smap) (v : JVal) :
    mget (mset m "show_in_toc" v) "text" = mget m "text" :=
  mget_mset_ne m "show_in_toc" "text" v (by decide)

/-- Setting `default_open` leaves `text` unread. -/
theorem mget_mset_dopen (m : Smap) (v : JVal) :
    mget (mset m "default_open" v) "text" = mget m "text" :=
  mget_mset_ne m "default_open" "text" v (by decide)

/-- Setting `hide_label` leaves `text` unread. -/
theorem mget_mset_hl (m : Smap) (v : JVal) :
    mget (mset m "hide_label" v) "text" = mget m "text" :=
  mget_mset_ne m "hide_label" "text" v (by decide)

/-- `beqJ` and `beqJList` are reflexive. -/
theorem beqJ_refl_aux : ∀ n : Nat,
    (∀ v : JVal, sizeOf v ≤ n → beqJ v v = true) ∧
    (∀ l : List JVal, sizeOf l ≤ n → beqJList l l = true) := by
  intro n
  induction n with
  | zero =>
    constructor
    · intro v hv
      cases v <;> simp at hv
    · intro l hl
      cases l with
      | nil => rfl
      | cons v r => simp at hl
  | succ n ih =>
    constructor
    · intro v hv
      cases v with
      | jnull => rfl
      | jbool b => simp [beqJ]
      | jnum m => simp [beqJ]
      | jstr s => simp [beqJ]
      | jarr l =>
        have hl : sizeOf l ≤ n := by
          simp at hv
          omega
        simp only [beqJ]
        exact ih.2 l hl
    · intro l hl
      cases l with
      | nil => rfl
      | cons v r =>
        have h1 : sizeOf v ≤ n := by
          simp at hl
          omega
        have h2 : sizeOf r ≤ n := by
          simp at hl
          omega
        simp only [beqJList]
        rw [ih.1 v h1, ih.2 r h2]
        rfl

/-- `beqJ` is reflexive. -/
theorem beqJ_refl (v : JVal) : beqJ v v = true :=
  (beqJ_refl_aux (sizeOf v)).1 v (Nat.le_refl _)

/-- `beqSmap` is reflexive. -/
theorem beqSmap_refl : ∀ m : Smap, beqSmap m m = true := by
  intro m
  induction m with
  | nil => rfl
  | cons kv r ih =>
    obtain ⟨k, v⟩ := kv
    simp only [beqSmap]
    rw [beqJ_refl, ih]
    simp

/-- `beqF` is reflexive on a forest of reflexive elements. -/
theorem beqF_refl_of : ∀ l : List Element, (∀ e ∈ l, beqE e e = true) →
    beqF l l = true := by
  intro l
  induction l with
  | nil => intro _; rfl
  | cons e r ih =>
    intro h
    simp only [beqF]
    rw [h e (List.mem_cons_self e r), ih (fun x hx => h x (List.mem_cons_of_mem e hx))]
    rfl

/-- `beqE` is reflexive. -/
theorem beqE_refl : ∀ e : Element, beqE e e = true := by
  apply element_strong_ind (P := fun e => beqE e e = true)
  intro u et nm lb cfg sty vis ch ihkids
  simp only [beqE]
  rw [beqSmap_refl, beqSmap_refl, beqSmap_refl]
  have hof : beqOF ch ch = true := by
    cases ch with
    | none => rfl
    | some kids =>
      simp only [beqOF]
      exact beqF_refl_of kids (by simpa using ihkids)
  rw [hof]
  simp

/-- Every element is a member of its own subtree. -/
theorem memSubtree_self (x : Element) : memSubtree x x = true := by
  cases x with
  | mk u et nm lb cfg sty vis ch =>
    unfold memSubtree
    rw [beqE_refl]
    simp

/-- The element inserted by a successful relative insertion is a member
of the resulting forest. -/
theorem insertRel_memForest (before : Bool) (x : Element) :
    ∀ (l : List Element) (uid : String) (l' : List Element),
      insertRelByUid before x l uid = some l' → memForest x l' = true := by
  intro l uid
  refine insertRelByUid.induct before x
    (fun e uid => ∀ e', insertRelByUidE before x e uid = some e' →
      memSubtree x e' = true)
    (fun l uid => ∀ l', insertRelByUid before x l uid = some l' →
      memForest x l' = true)
    ?_ ?_ ?_ ?_ ?_ ?_ ?_ ?_ ?_ l uid
  · intro u et nm lb cfg sty vis uid kids kids1 hkids ih e' he'
    simp only [insertRelByUidE, hkids] at he'
    cases he'
    simp only [memSubtree]
    rw [ih kids1 hkids]
    simp
  · intro u et nm lb cfg sty vis uid kids hkids ih e' he'
    simp only [insertRelByUidE, hkids] at he'
    exact Option.noConfusion he'
  · intro u et nm lb cfg sty vis uid e' he'
    simp only [insertRelByUidE] at he'
    exact Option.noConfusion he'
  · intro uid l' h
    simp only [insertRelByUid] at h
    exact Option.noConfusion h
  · intro e rest uid huid hb l' h
    simp only [insertRelByUid, huid, hb, if_true] at h
    cases h
    simp only [memForest]
    rw [memSubtree_self]
    simp
  · intro e rest uid huid hb l' h
    simp only [insertRelByUid, huid, hb, if_true, if_false, Bool.false_eq_true] at h
    cases h
    simp only [memForest]
    rw [memSubtree_self]
    simp
  · intro e rest uid huid e1 hE ih l' h
    simp only [insertRelByUid, huid, if_false, Bool.false_eq_true, hE] at h
    cases h
    simp only [memForest]
    rw [ih e1 hE]
    simp
  · intro e rest uid huid hE rest1 hrest ihE ihR l' h
    simp only [insertRelByUid, huid, if_false, Bool.false_eq_true, hE, hrest] at h
    cases h
    simp only [memForest]
    rw [ihR rest1 hrest]
    simp
  · intro e rest uid huid hE hrest ihE ihR l' h
    simp only [insertRelByUid, huid, if_false, Bool.false_eq_true, hE, hrest] at h
    exact Option.noConfusion h

/-- A uid the finder locates is one the relative insertion succeeds at. -/
theorem find_insertRel_some (before : Bool) (x : Element) :
    ∀ (l : List Element) (uid : String) (f : Element),
      findElementByUid l uid = some f →
      ∃ l', insertRelByUid before x l uid = some l' := by
  intro l uid
  refine findElementByUid.induct
    (fun e uid => ∀ f, findElementByUidE e uid = some f →
      (e.uid == uid) = true ∨ ∃ e', insertRelByUidE before x e uid = some e')
    (fun l uid => ∀ f, findElementByUid l uid = some f →
      ∃ l', insertRelByUid before x l uid = some l')
    ?_ ?_ ?_ ?_ ?_ ?_ l uid
  · intro u et nm lb cfg sty vis ch uid huid f hf
    left
    simpa [Element.uid] using huid
  · intro u et nm lb cfg sty vis uid huid kids ih f hf
    unfold findElementByUidE at hf
    rw [if_neg huid] at hf
    obtain ⟨kids', hk⟩ := ih f hf
    refine Or.inr ⟨Element.mk u et nm lb cfg sty vis (some kids'), ?_⟩
    unfold insertRelByUidE
    dsimp only
    rw [hk]
  · intro u et nm lb cfg sty vis uid huid f hf
    unfold findElementByUidE at hf
    rw [if_neg huid] at hf
    exact Option.noConfusion hf
  · intro uid f hf
    simp only [findElementByUid] at hf
    exact Option.noConfusion hf
  · intro e rest uid f0 hE ihE f hf
    rcases ihE f0 hE with hu | ⟨e', he'⟩
    · refine ⟨if before then x :: e :: rest else e :: x :: rest, ?_⟩
      unfold insertRelByUid
      rw [if_pos hu]
      cases before
      · simp
      · simp
    · by_cases hu : (e.uid == uid) = true
      · refine ⟨if before then x :: e :: rest else e :: x :: rest, ?_⟩
        unfold insertRelByUid
        rw [if_pos hu]
        cases before
        · simp
        · simp
      · refine ⟨e' :: rest, ?_⟩
        unfold insertRelByUid
        rw [if_neg hu, he']
  · intro e rest uid hE ihE ihR f hf
    simp only [findElementByUid, hE] at hf
    obtain ⟨rest', hr⟩ := ihR f hf
    by_cases hu : (e.uid == uid) = true
    · refine ⟨if before then x :: e :: rest else e :: x :: rest, ?_⟩
      unfold insertRelByUid
      rw [if_pos hu]
      cases before
      · simp
      · simp
    · cases hins : insertRelByUidE before x e uid with
      | some e1 =>
        refine ⟨e1 :: rest, ?_⟩
        unfold insertRelByUid
        rw [if_neg hu, hins]
      | none =>
        refine ⟨e :: rest', ?_⟩
        unfold insertRelByUid
        rw [if_neg hu, hins, hr]

/-- Unfolding of the C7 name-correspondence relation on childless nodes. -/
theorem nameCorrE_none_eq (S u et : String) (nm lb : Option String)
    (cfg sty vis : Smap)
    (u' et' : String) (nm' lb' : Option String) (cfg' sty' vis' : Smap) :
    nameCorrE S (Element.mk u et nm lb cfg sty vis none)
        (Element.mk u' et' nm' lb' cfg' sty' vis' none) =
      (et' == et &&
        (nm' == (if et == "attribute" && truthyS nm then some (nm.getD "" ++ S) else nm)) &&
        true) := rfl

/-- Unfolding of the C7 name-correspondence relation on nodes with child
arrays. -/
theorem nameCorrE_some_eq (S u et : String) (nm lb : Option String)
    (cfg sty vis : Smap) (kids : List Element)
    (u' et' : String) (nm' lb' : Option String) (cfg' sty' vis' : Smap)
    (kids' : List Element) :
    nameCorrE S (Element.mk u et nm lb cfg sty vis (some kids))
        (Element.mk u' et' nm' lb' cfg' sty' vis' (some kids')) =
      (et' == et &&
        (nm' == (if et == "attribute" && truthyS nm then some (nm.getD "" ++ S) else nm)) &&
        nameCorrF S kids kids') := rfl

/-- The clone transform satisfies the C7 name correspondence for every
non-empty suffix. -/
theorem nameCorr_transform (lf lr : Option String) (S : String) (hS : S ≠ "") :
    ∀ e : Element, ∀ n : Nat,
      nameCorrE S e (transformElement lf lr S e n).1 = true := by
  have hS' : (S != "") = true := by simpa using hS
  apply element_strong_ind
    (P := fun e => ∀ n : Nat, nameCorrE S e (transformElement lf lr S e n).1 = true)
  intro u et nm lb cfg sty vis ch ihkids n
  have hnm : ((if S != "" && et == "attribute" && truthyS nm
        then some (nm.getD "" ++ S) else nm) ==
      (if et == "attribute" && truthyS nm then some (nm.getD "" ++ S) else nm)) = true := by
    rw [hS', Bool.true_and]
    split
    · simp
    · simp
  cases ch with
  | none =>
    rw [transformElement_none_eq]
    dsimp only
    rw [nameCorrE_none_eq]
    rw [hnm]
    simp
  | some kids =>
    rw [transformElement_some_eq]
    dsimp only
    rw [nameCorrE_some_eq]
    rw [hnm]
    have hkids : ∀ (l : List Element),
        (∀ e ∈ l, ∀ n : Nat, nameCorrE S e (transformElement lf lr S e n).1 = true) →
        ∀ m : Nat, nameCorrF S l (transformElementF lf lr S l m).1 = true := by
      intro l
      induction l with
      | nil =>
        intro _ m
        rfl
      | cons e rest ihl =>
        intro hpt m
        rw [transformElementF_cons_eq]
        dsimp only
        simp only [nameCorrF]
        rw [hpt e (List.mem_cons_self e rest) m,
          ihl (fun y hy => hpt y (List.mem_cons_of_mem e hy)) _]
        rfl
    simp only [hkids kids ihkids (n + 1)]
    simp

/-- The hex pass is the identity on text with no `#`. -/
theorem hexScan_id (fam target : String) :
    ∀ (fuel : Nat) (s : List Char), (∀ c ∈ s, (c == '#') = false) →
      hexScan fam target fuel s = s := by
  intro fuel
  induction fuel with
  | zero =>
    intro s _
    rfl
  | succ n ih =>
    intro s hs
    cases s with
    | nil => rfl
    | cons c rest =>
      have hc : ¬((c == '#') = true) := by
        simp [hs c (List.mem_cons_self c rest)]
      simp only [hexScan]
      rw [if_neg hc]
      rw [ih rest (fun d hd => hs d (List.mem_cons_of_mem c hd))]

/-- No `rgb` trigram anywhere means no `rgb(`/`rgba(` match at the
head. -/
theorem rgbMatchAt_none_of_no_tri (s : List Char) (h : hasRgbTri s = false) :
    rgbMatchAt s = none := by
  match s with
  | [] => rfl
  | [c] => rfl
  | [c, d] => rfl
  | r :: g :: b :: t0 =>
    simp only [hasRgbTri, Bool.or_eq_false_iff] at h
    have hng : ¬((ciEq r 'r' && ciEq g 'g' && ciEq b 'b') = true) := by
      simp [h.1]
    simp only [rgbMatchAt]
    rw [if_neg hng]

/-- Absence of the `rgb` trigram is inherited by the tail. -/
theorem hasRgbTri_tail (c : Char) (rest : List Char)
    (h : hasRgbTri (c :: rest) = false) : hasRgbTri rest = false := by
  match rest with
  | [] => rfl
  | [d] => rfl
  | d :: e :: t =>
    simp only [hasRgbTri, Bool.or_eq_false_iff] at h
    exact h.2

/-- The `rgb`/`rgba` pass is the identity on text with no `rgb`
trigram. -/
theorem rgbScan_id (fam target : String) :
    ∀ (fuel : Nat) (s : List Char), hasRgbTri s = false →
      rgbScan fam target fuel s = s := by
  intro fuel
  induction fuel with
  | zero =>
    intro s _
    rfl
  | succ n ih =>
    intro s hs
    cases s with
    | nil => rfl
    | cons c rest =>
      simp only [rgbScan, rgbMatchAt_none_of_no_tri (c :: rest) hs]
      rw [ih rest (hasRgbTri_tail c rest hs)]

/-- A successful case-insensitive prefix match consumes exactly the
pattern's length and splits the input. -/
theorem ciPrefix_spec : ∀ (p s m t : List Char), ciPrefix p s = some (m, t) →
    m.length = p.length ∧ s = m ++ t := by
  intro p
  induction p with
  | nil =>
    intro s m t h
    simp only [ciPrefix, Option.some.injEq, Prod.mk.injEq] at h
    obtain ⟨h1, h2⟩ := h
    subst h1
    subst h2
    simp
  | cons a ps ih =>
    intro s m t h
    cases s with
    | nil =>
      simp only [ciPrefix] at h
      exact Option.noConfusion h
    | cons c cs =>
      simp only [ciPrefix] at h
      by_cases hc : (ciEq a c) = true
      · rw [if_pos hc] at h
        cases hp : ciPrefix ps cs with
        | none =>
          rw [hp] at h
          exact Option.noConfusion h
        | some pr =>
          obtain ⟨m0, t0⟩ := pr
          rw [hp] at h
          simp only [Option.some.injEq, Prod.mk.injEq] at h
          obtain ⟨h1, h2⟩ := h
          subst h1
          subst h2
          obtain ⟨hl, hsplit⟩ := ih cs m0 _ hp
          constructor
          · simp [hl]
          · simp [hsplit]
      · rw [if_neg hc] at h
        exact Option.noConfusion h

/-- The matched property name of `propNameAt` is one of the styling
declaration property names, matched case-insensitively. -/
theorem propNameAt_cases (s : List Char) (p t : List Char)
    (h : propNameAt s = some (p, t)) :
    ∃ pn ∈ declPropNames, ciPrefix pn.data s = some (p, t) := by
  simp only [propNameAt] at h
  cases h1 : ciPrefix ("color").data s with
  | some r =>
    rw [h1] at h
    cases h
    exact ⟨"color", by simp [declPropNames], h1⟩
  | none =>
    rw [h1] at h
    cases h2 : ciPrefix ("background-color").data s with
    | some r =>
      rw [h2] at h
      cases h
      exact ⟨"background-color", by simp [declPropNames], h2⟩
    | none =>
      rw [h2] at h
      exact ⟨"border-color", by simp [declPropNames], h⟩

/-- A keyword-in-declaration match at the head of the input is a
styling-declaration context at the head of the input. -/
theorem kwMatchAt_context (kw : String) (s : List Char)
    (g1 kwc tail : List Char)
    (h : kwMatchAt kw s = some (g1, kwc, tail)) :
    stylingContextHere kw s = true := by
  simp only [kwMatchAt] at h
  split at h
  · exact Option.noConfusion h
  · rename_i p t1 hp
    split at h
    · rename_i t3 heq2
      split at h
      · rename_i kwChars tail2 heq3
        split at h
        · rename_i hb
          obtain ⟨pn, hmem, hpfx⟩ := propNameAt_cases s p t1 hp
          obtain ⟨hplen, hsplit⟩ := ciPrefix_spec pn.data s p t1 hpfx
          obtain ⟨hklen, hksplit⟩ := ciPrefix_spec kw.data
            (t3.dropWhile isJsSpace) kwChars tail2 heq3
          rw [stylingContextHere]
          apply List.any_eq_true.mpr
          refine ⟨pn, hmem, ?_⟩
          have h1 : startsWithCI pn.data s = true := by
            rw [startsWithCI, hpfx]
            rfl
          rw [h1, Bool.true_and]
          have hdrop0 : s.drop pn.length = t1 := by
            rw [hsplit]
            have hlen : pn.length = p.length := by
              rw [String.length]
              omega
            rw [hlen]
            exact List.drop_left p t1
          rw [hdrop0]
          simp only [heq2]
          have h2 : startsWithCI kw.data (t3.dropWhile isJsSpace) = true := by
            rw [startsWithCI, heq3]
            rfl
          rw [h2, Bool.true_and]
          have hdrop2 : (t3.dropWhile isJsSpace).drop kw.length = tail2 := by
            rw [hksplit]
            have hlen2 : kw.length = kwChars.length := by
              rw [String.length]
              omega
            rw [hlen2]
            exact List.drop_left kwChars tail2
          rw [hdrop2]
          exact hb
        · exact Option.noConfusion h
      · exact Option.noConfusion h
    · exact Option.noConfusion h

/-- Styling context is position-wise: absent overall, absent at the
head and in the tail. -/
theorem hasStylingContext_cons (kw : String) (c : Char) (rest : List Char)
    (h : hasStylingContext kw (c :: rest) = false) :
    stylingContextHere kw (c :: rest) = false ∧ hasStylingContext kw rest = false := by
  simp only [hasStylingContext, Bool.or_eq_false_iff] at h
  exact h

/-- The keyword pass is the identity on text with no styling-declaration
occurrence of the keyword. -/
theorem kwScan_id (kw target : String) :
    ∀ (fuel : Nat) (pre s : List Char), hasStylingContext kw s = false →
      kwScan kw target fuel pre s = s := by
  intro fuel
  induction fuel with
  | zero =>
    intro pre s _
    rfl
  | succ n ih =>
    intro pre s hs
    cases s with
    | nil => rfl
    | cons c rest =>
      obtain ⟨hhead, htail⟩ := hasStylingContext_cons kw c rest hs
      have hm : kwMatchAt kw (c :: rest) = none := by
        cases hk : kwMatchAt kw (c :: rest) with
        | none => rfl
        | some r =>
          obtain ⟨g1, kwc, tail⟩ := r
          have hctx := kwMatchAt_context kw (c :: rest) g1 kwc tail hk
          rw [hhead] at hctx
          exact Bool.noConfusion hctx
      simp only [kwScan, hm]
      rw [ih (pre ++ [c]) rest htail]

/-- The keyword stage folded over a keyword list is the identity when no
keyword of the list occurs in a styling-declaration context. -/
theorem foldl_kwScan_id (target : String) :
    ∀ (l : List String) (s : List Char),
      (∀ kw ∈ l, hasStylingContext kw s = false) →
      l.foldl (fun acc kw => kwScan kw target acc.length [] acc) s = s := by
  intro l
  induction l with
  | nil =>
    intro s _
    rfl
  | cons kw rest ih =>
    intro s h
    rw [List.foldl_cons]
    rw [kwScan_id kw target s.length [] s (h kw (List.mem_cons_self kw rest))]
    exact ih s (fun k hk => h k (List.mem_cons_of_mem kw hk))


/-! ## Claim theorems -/

/-- C1: refuted as stated.  The interpreter does not leave the document
unchanged when a move operation's destination anchor cannot be located:
the source node is detached before the destination is validated, so the
failed insertion silently drops the node.  On `c1Doc` (nodes `g`, `t`)
the move of `t` to the nonexistent destination `missing-dest` produces a
document containing only `g` — the operation is partially applied and
the node is lost. -/
theorem move_unresolved_destination_loses_node :
    forestUids c1Doc.elements = ["g", "t"] ∧
      forestUids (applyOperations c1Doc [c1Op]).elements = ["g"] := by
  exact ⟨by decide, by decide⟩

/-- C2: refuted as stated.  A move whose destination lies inside the
moved node's own subtree is not rejected and the document does not stay
unchanged: the subtree is detached first, the destination then cannot be
found in the remaining forest, and the whole subtree vanishes.  On
`c2Doc` (Group `g` with child `c`), moving `g` inside `c` yields the
empty document. -/
theorem move_into_own_subtree_drops_subtree :
    forestUids c2Doc.elements = ["g", "c"] ∧
      forestUids (applyOperations c2Doc [c2Op]).elements = [] := by
  exact ⟨by decide, by decide⟩

/-- C3 (counterexample to the stated generality): a `replace_subtree`
operation splices in a caller-supplied Field-reference node without
creating a registry entry for its field name, so the
registry-completeness invariant that held before the batch is broken
after it. -/
theorem replace_subtree_breaks_registry_invariant :
    regInvB c3Doc = true ∧ regInvB (applyOperations c3Doc [c3Op]) = false := by
  exact ⟨by decide, by decide⟩

/-- C3 (amended): for every batch containing no `replace_subtree`
operation, `applyOperations` preserves the registry-completeness
invariant — every Field-reference node of the output has a registry
entry for its field name, entries being auto-created by `add`,
`clone_subtree` (and trivially preserved by the remaining operation
types). -/
theorem registry_invariant_no_replace_subtree (d : ExportData) (ops : List Op)
    (hinv : regInvB d = true)
    (hops : ∀ op ∈ ops, op.type ≠ "replace_subtree") :
    regInvB (applyOperations d ops) = true := by
  have hst : invSt (IState.mk d.elements d.modelAttrs [] 0) := by
    intro s hs
    exact (regInvB_iff d).mp hinv s hs
  have key := invSt_foldl ops _ hst hops
  rw [regInvB_iff, applyOperations, deepCopyExport_id]
  dsimp only
  intro s hs
  exact key s hs

/-- C3 witness: a concrete batch exercising `add`, `edit`,
`clone_subtree` with a suffix, `move`, `bulk_replace` and `delete`
preserves the registry invariant. -/
theorem registry_invariant_no_replace_subtree_witness :
    regInvB c3WDoc = true ∧ (∀ op ∈ c3WOps, op.type ≠ "replace_subtree") ∧
      regInvB (applyOperations c3WDoc c3WOps) = true :=
  ⟨by decide, by decide,
    registry_invariant_no_replace_subtree c3WDoc c3WOps (by decide) (by decide)⟩

/-- C4: refuted as stated.  An `add` with position `inside` whose target
is a Text node gives that Text node a child list: the insertion helper
pushes into `target.elements` after creating it unconditionally, with no
check that the target is a Group.  On `c4Doc` (a single Text node `t`),
adding a Text inside `t` breaks the children-only-under-Groups
invariant. -/
theorem add_inside_text_node_creates_children :
    onlyGroupsHaveChildrenF c4Doc.elements = true ∧
      onlyGroupsHaveChildrenF (applyOperations c4Doc [c4Op]).elements = false := by
  exact ⟨by decide, by decide⟩

/-- C5 (counterexample to the stated generality): the move branch
re-resolves its destination without the `$root` exception, so a move
destination of `$root` IS looked up in the alias table — it resolves
through an alias named `root` when one exists and to nothing (skipping
the insertion) otherwise. -/
theorem move_destination_root_sentinel_looked_up :
    resolveMoveDest [("root", "u0")] (some "$root") = some "u0" ∧
      resolveMoveDest [] (some "$root") = none := by
  exact ⟨rfl, rfl⟩

/-- C5 (amended): the per-operation primary addressing field does
recognise the `$root` sentinel specially — `resolveTargetUid` passes it
through unresolved for every alias table — but the move destination
re-resolution (`resolveMoveDest`) has no such exception and treats
`$root` as the alias reference `root`. -/
theorem root_sentinel_resolution (aliases : Aliases) :
    resolveTargetUid aliases (some "$root") = some "$root" ∧
      resolveMoveDest aliases (some "$root") = aget aliases "root" := by
  exact ⟨rfl, rfl⟩

/-- C6: confirmed.  `applyOperations` reads the caller's document only
through the initial deep copy, and the deep copy is a faithful
reproduction (the identity on the embedded document), so the input
document the caller holds after the batch equals its value before —
the engine never mutates it. -/
theorem apply_operations_input_unmodified (d : ExportData) (ops : List Op) :
    deepCopyExport d = d ∧
      applyOperations d ops = applyOperations (deepCopyExport d) ops := by
  refine ⟨deepCopyExport_id d, ?_⟩
  rw [deepCopyExport_id]

/-- C8: refuted.  The color rewrite is not idempotent: a target of
several hex words re-inserts raw `#`-literals that the hex pass of a
second application matches again.  With find family `red` and
replacement text `#ee0000 #dd0000`, the first application of
`replaceColorsInHtml` to `#ff0000` yields `#ee0000 #dd0000`, whose
members are themselves in the red family, so the second application
changes the text again. -/
theorem color_rewrite_not_idempotent :
    replaceColorsInHtml (replaceColorsInHtml "#ff0000" "red" "#ee0000 #dd0000")
        "red" "#ee0000 #dd0000"
      ≠ replaceColorsInHtml "#ff0000" "red" "#ee0000 #dd0000" := by
  decide

/-- C10: confirmed.  When a `bulk_replace` operation supplies both a
truthy color pair (`find_color`/`replace_color`) and a truthy literal
pair (`find`/`replace`), a targeted element with (truthy) text content
receives only the color-family rewrite: the resulting text is
`replaceColorsInHtml` of the old text, and the literal substring
replacement is not performed — the two rewrites sit on an if/else-if, so
the color arm takes precedence. -/
theorem bulk_replace_color_precedes_literal (op : Op) (e : Element) (t : String)
    (hts : t ≠ "")
    (hfc : truthyS op.find_color = true) (hrc : truthyS op.replace_color = true)
    (hf : truthyS op.find = true) (hr : truthyS op.replace = true)
    (ht : mget e.config "text" = some (JVal.jstr t)) :
    mget (bulkUpdateEl op e).config "text" =
      some (JVal.jstr (replaceColorsInHtml t (op.find_color.getD "")
        (op.replace_color.getD ""))) := by
  have htt : (t != "") = true := by simpa using hts
  have htr : truthy (some (JVal.jstr t)) = true := by simp [truthy, htt]
  cases e with
  | mk u et nm lb cfg sty vis ch =>
    simp only [Element.config] at ht
    simp only [bulkUpdateEl, Element.config]
    cases hg : (et == "group") <;>
    cases h1 : op.set_required <;> cases h2 : op.set_read_only <;>
    cases h4 : op.set_collapsible <;> cases h5 : op.set_show_in_toc <;>
    cases h6 : op.set_default_open <;> cases h7 : op.set_hide_label <;>
      simp only [h1, h2, h4, h5, h6, h7, hg, if_true, if_false,
        Bool.false_eq_true, mget_mset_req, mget_mset_ro, mget_mset_col,
        mget_mset_toc, mget_mset_dopen, mget_mset_hl, ht, htr,
        hfc, hrc, Bool.true_and, mget_mset_self]

/-- C10 witness: on a Text node whose text is `color: red`, a
`bulk_replace` carrying both pairs rewrites the text through the color
pass only. -/
theorem bulk_replace_color_precedes_literal_witness :
    mget (bulkUpdateEl c10Op c10El).config "text" =
      some (JVal.jstr (replaceColorsInHtml "color: red" "red" "blue")) :=
  bulk_replace_color_precedes_literal c10Op c10El "color: red" (by decide)
    (by decide) (by decide) (by decide) (by decide) rfl

/-- C7 (counterexample to the stated generality): cloning a Group whose
Field-reference child has the empty-string field name with suffix `_y2`
leaves that child's name `""` (not `"" ++ "_y2"` = `"_y2"`), and no
`_y2` registry entry is created — so "every Field-reference descendant"
overstates the code, which suffixes and registers only truthy
(non-empty) names. -/
theorem clone_empty_field_name_not_suffixed :
    attrNamesF (applyOperations c7Doc [c7Op]).elements
        = ["", "amount", "", "amount_y2"] ∧
      ((regNames (applyOperations c7Doc [c7Op]).modelAttrs).contains "_y2") = false := by
  exact ⟨by decide, by decide⟩

/-- C7 (amended): for a `clone_subtree` with a non-empty field suffix
`S` whose source node exists, the inserted clone corresponds to the
source node for node: non-empty field names become the source name with
`S` appended (empty or absent names stay unchanged), the clone is a
member of the resulting document, and every non-empty field name of the
clone has an Attribute Registry entry afterwards. -/
theorem clone_subtree_suffix_correspondence (st : IState) (op : Op) (sourceEl : Element)
    (hsrc : findElementByUidO st.elements op.source_uid = some sourceEl)
    (hS : op.field_suffix.getD "" ≠ "") :
    nameCorrE (op.field_suffix.getD "") sourceEl
        (transformElement op.label_find op.label_replace (op.field_suffix.getD "")
          sourceEl st.counter).1 = true ∧
      memForest (transformElement op.label_find op.label_replace (op.field_suffix.getD "")
          sourceEl st.counter).1 (applyCloneSubtree st op).elements = true ∧
      ∀ n ∈ attrNamesE (transformElement op.label_find op.label_replace
          (op.field_suffix.getD "") sourceEl st.counter).1,
        n ≠ "" → n ∈ regNames (applyCloneSubtree st op).modelAttrs := by
  have hS' : (op.field_suffix.getD "" != "") = true := by simpa using hS
  cases hsu : op.source_uid with
  | none =>
    rw [hsu] at hsrc
    simp [findElementByUidO] at hsrc
  | some su =>
    have hfind : findElementByUid st.elements su = some sourceEl := by
      rw [hsu] at hsrc
      simpa [findElementByUidO] using hsrc
    obtain ⟨l', hl'⟩ := find_insertRel_some
      (posOrAfter op.position == "before")
      (transformElement op.label_find op.label_replace (op.field_suffix.getD "")
        sourceEl st.counter).1 st.elements su sourceEl hfind
    have hbranch : applyCloneSubtree st op =
        IState.mk l'
          (ensureRegEntries st.modelAttrs (collectFieldNames
            (transformElement op.label_find op.label_replace (op.field_suffix.getD "")
              sourceEl st.counter).1))
          st.aliases
          (transformElement op.label_find op.label_replace (op.field_suffix.getD "")
            sourceEl st.counter).2 := by
      rw [applyCloneSubtree.eq_def, hsrc]
      dsimp only
      rw [if_pos hS']
      rw [hsu]
      dsimp only
      rw [hl']
      rfl
    refine ⟨nameCorr_transform op.label_find op.label_replace _ hS sourceEl st.counter,
      ?_, ?_⟩
    · rw [hbranch]
      exact insertRel_memForest _ _ st.elements su l' hl'
    · intro n hn hne
      rw [hbranch]
      apply ensureReg_adds
      rw [collectFieldNames_eq]
      apply List.mem_filter.mpr
      exact ⟨hn, by simpa using hne⟩

/-- C7 witness: the Scenario-B clone (suffix `_y2`, label rewrite) on a
Group with fields `amount` and `notes` satisfies the name
correspondence, lands in the document, and has its suffixed names
registered. -/
theorem clone_subtree_suffix_correspondence_witness :
    nameCorrE (c7WOp.field_suffix.getD "") c7WSrc
        (transformElement c7WOp.label_find c7WOp.label_replace
          (c7WOp.field_suffix.getD "") c7WSrc c7WSt.counter).1 = true ∧
      memForest (transformElement c7WOp.label_find c7WOp.label_replace
          (c7WOp.field_suffix.getD "") c7WSrc c7WSt.counter).1
        (applyCloneSubtree c7WSt c7WOp).elements = true ∧
      ∀ n ∈ attrNamesE (transformElement c7WOp.label_find c7WOp.label_replace
          (c7WOp.field_suffix.getD "") c7WSrc c7WSt.counter).1,
        n ≠ "" → n ∈ regNames (applyCloneSubtree c7WSt c7WOp).modelAttrs :=
  clone_subtree_suffix_correspondence c7WSt c7WOp c7WSrc rfl (by decide)

/-- C9 (counterexample to the stated generality): the keyword `maroon`
occurs in `color: red maroon` as arbitrary free text — not in a
styling-declaration context — yet the red-family rewrite with
replacement text `x;color:` changes it: the earlier `red` pass inserts
its replacement verbatim, creating a new `color:` context directly
before `maroon`, which the later `maroon` pass then matches.  The
end-to-end output is `color: x;color: x;color:`. -/
theorem keyword_rewritten_outside_styling_context :
    "maroon" ∈ kwListFor "red" ∧
      hasStylingContext "maroon" ("color: red maroon").data = false ∧
      replaceColorsInHtml "color: red maroon" "red" "x;color:"
        = "color: x;color: x;color:" := by
  refine ⟨by decide, by decide, by decide⟩

/-- C9 (amended): the styling-declaration restriction holds per keyword
pass, not end to end.  (1) A keyword-in-declaration match at any point
of a pass's input is a styling-declaration context there — after a
`color`/`background-color`/`border-color` property name and colon — so
a single pass rewrites its keyword only at such contexts of its own
input text.  (2) A keyword with no styling-context occurrence in a
pass's input is left unchanged by that pass.  (3) End to end,
`replaceColorsInHtml` leaves a text unchanged whenever the hex and
`rgb`/`rgba` passes cannot fire (no `#`, no `rgb` trigram) and no
family keyword occurs in a styling-declaration context.  Because later
passes run on earlier passes' output and replacement text is inserted
verbatim, an earlier replacement can create a fresh context and a
keyword that was arbitrary substring text in the original input can
still be rewritten. -/
theorem keyword_rewrite_styling_context_per_pass :
    (∀ (kw : String) (s g1 kwc tail : List Char),
        kwMatchAt kw s = some (g1, kwc, tail) → stylingContextHere kw s = true) ∧
      (∀ (kw target : String) (fuel : Nat) (pre s : List Char),
          hasStylingContext kw s = false → kwScan kw target fuel pre s = s) ∧
      (∀ (t f r : String), hasHash t = false → hasRgbTri t.data = false →
          (∀ kw ∈ kwListFor f, hasStylingContext kw t.data = false) →
          replaceColorsInHtml t f r = t) := by
  refine ⟨fun kw s g1 kwc tail h => kwMatchAt_context kw s g1 kwc tail h,
    fun kw target fuel pre s h => kwScan_id kw target fuel pre s h,
    fun t f r h1 h2 h3 => ?_⟩
  have hnohash : ∀ c ∈ t.data, (c == '#') = false := by
    intro c hc
    by_contra hcontra
    have : t.data.any (fun c => c == '#') = true :=
      List.any_eq_true.mpr ⟨c, hc, by simpa using hcontra⟩
    rw [hasHash] at h1
    rw [h1] at this
    exact Bool.noConfusion this
  rw [replaceColorsInHtml]
  rw [hexScan_id f (getTargetColor r) t.data.length t.data hnohash]
  rw [rgbScan_id f (getTargetColor r) t.data.length t.data h2]
  rw [foldl_kwScan_id (getTargetColor r) (kwListFor f) t.data h3]

end FluxxBridge
